import Mathlib

/-!
Verification of the memedge memory engine against its specification.

The development shallowly embeds the TypeScript source: JS strings are
modelled as lists of characters, the SQLite tables as Lean lists kept in
rowid order, `Date.now()` timestamps as explicit `Nat` parameters, and the
embedding gateway as a function parameter that may fail.  Floating-point
vectors are idealised as lists of real numbers.
-/

namespace Memedge

/-- JS strings, modelled as lists of characters. -/
abbrev Str := List Char

/-- Whitespace as removed by `String.prototype.trim` (the ASCII part:
space, tab, line feed, vertical tab, form feed, carriage return). -/
def isWsChar (c : Char) : Bool :=
  c == ' ' || c == '\t' || c == '\n' || c == '\x0b' || c == '\x0c' || c == '\r'

/-- Remove leading whitespace. -/
def ltrim (s : Str) : Str := s.dropWhile isWsChar

/-- Remove trailing whitespace. -/
def rtrim (s : Str) : Str := (s.reverse.dropWhile isWsChar).reverse

/-- JS `String.prototype.trim`: remove leading and trailing whitespace. -/
def jsTrim (s : Str) : Str := rtrim (ltrim s)

/-- Boolean prefix test used to express the JS string helpers. -/
def strStartsWith : Str → Str → Bool
  | [], _ => true
  | _ :: _, [] => false
  | a :: p, b :: s => a == b && strStartsWith p s

/-- Boolean suffix test ("the content ends with x"). -/
def strEndsWith (suf s : Str) : Bool := strStartsWith suf.reverse s.reverse

/-- JS `haystack.includes(sub)`: substring containment test. -/
def jsIncludes (sub : Str) : Str → Bool
  | [] => sub.isEmpty
  | c :: rest => strStartsWith sub (c :: rest) || jsIncludes sub rest

/-- The backtick character (code 96), spelled by code to keep the source
plain. -/
def backtickChar : Char := Char.ofNat 96

/-- The single-quote character (code 39), spelled by code to keep the
source plain. -/
def singleQuoteChar : Char := Char.ofNat 39

/-- `GetSubstitution` from the ECMAScript specification, specialised to a
string search pattern (no capture groups): scanning the replacement text,
`$$` yields a dollar sign, `$&` the matched substring, a dollar sign
followed by a backtick the portion of the subject before the match, a
dollar sign followed by a single quote the portion after the match; any
other dollar sign (including `$` before a digit, since there are no
capture groups, and a trailing `$`) is literal. -/
def getSubstitution (matched before after : Str) : Str → Str
  | [] => []
  | c :: rest =>
    if c = '$' then
      match rest with
      | [] => ['$']
      | d :: rest2 =>
        if d = '$' then '$' :: getSubstitution matched before after rest2
        else if d = '&' then matched ++ getSubstitution matched before after rest2
        else if d = backtickChar then before ++ getSubstitution matched before after rest2
        else if d = singleQuoteChar then after ++ getSubstitution matched before after rest2
        else c :: d :: getSubstitution matched before after rest2
    else c :: getSubstitution matched before after rest

/-- The scan of JS `s.replace(old, new)` with string arguments: emit the
subject until the first occurrence of `old`, then splice in the
replacement text rewritten by `GetSubstitution` and the rest of the
subject.  `pre` accumulates the emitted prefix in reverse, so that the
before-the-match portion can be passed to `GetSubstitution`. -/
def replaceFirstAux (old new pre : Str) : Str → Str
  | [] =>
    if strStartsWith old ([] : Str) then
      getSubstitution old pre.reverse [] new
    else []
  | c :: rest =>
    if strStartsWith old (c :: rest) then
      getSubstitution old pre.reverse ((c :: rest).drop old.length) new
        ++ (c :: rest).drop old.length
    else c :: replaceFirstAux old new (c :: pre) rest

/-- JS `s.replace(old, new)` with a string pattern: replace the first
occurrence of `old` in `s`, applying `GetSubstitution` to the replacement
text. -/
def replaceFirst (old new s : Str) : Str := replaceFirstAux old new [] s

/-- The substitution the specification text describes: the first
occurrence of `old` replaced by `new` taken verbatim.  It agrees with
`replaceFirst` exactly when `new` contains no dollar sign. -/
def literalReplaceFirst (old new : Str) : Str → Str
  | [] => if strStartsWith old ([] : Str) then new else []
  | c :: rest =>
    if strStartsWith old (c :: rest) then new ++ (c :: rest).drop old.length
    else c :: literalReplaceFirst old new rest

/-- `MemoryBlockType` from `blocks.ts`. -/
inductive MemoryBlockType
  | core
  | archival
deriving DecidableEq

/-- `MemoryBlock` from `blocks.ts`.  `metadata` is the parsed JSON object,
modelled as an association list (`[]` is the empty object). -/
structure MemoryBlock where
  id : Str
  label : Str
  content : Str
  type : MemoryBlockType
  updated_at : Nat
  metadata : List (Str × Str)
deriving DecidableEq

/-- The `memory_blocks` table in rowid order.  The in-process cache is
write-through for every modelled operation, so cache and table hold the
same rows and are modelled as one store. -/
abbrev BlockStore := List MemoryBlock

/-- `MemoryError` from `shared/errors.ts`: an operation name and a cause. -/
structure MemoryErr where
  operation : String
  cause : Str
deriving DecidableEq

/-- `getBlock` from `blocks.ts`: cache/row lookup by id (`SELECT ... WHERE
id = ?` returns the unique matching row; on a list, the first one). -/
def getBlock : BlockStore → Str → Option MemoryBlock
  | [], _ => none
  | b :: rest, id => if b.id = id then some b else getBlock rest id

/-- `createBlock` from `blocks.ts`: `INSERT` a fresh row with
`updated_at = Date.now()` and the empty JSON object as metadata; the
primary key makes the insert throw (surfaced as a `MemoryError`) when the
id is already present. -/
def createBlock (s : BlockStore) (id label content : Str)
    (type : MemoryBlockType) (now : Nat) :
    Except MemoryErr (MemoryBlock × BlockStore) :=
  if (getBlock s id).isSome then
    Except.error ⟨"createBlock", ("UNIQUE constraint failed: memory_blocks.id").data⟩
  else
    let block : MemoryBlock := ⟨id, label, content, type, now, []⟩
    Except.ok (block, s ++ [block])

/-- `updateBlock` from `blocks.ts`: `UPDATE memory_blocks SET content = ?,
updated_at = ? WHERE id = ?` (a no-op on rows whose id differs; it succeeds
even when no row matches). -/
def updateBlockStore (s : BlockStore) (id content : Str) (now : Nat) : BlockStore :=
  s.map (fun b => if b.id = id then { b with content := content, updated_at := now } else b)

/-- The `position` argument of `insertContent`. -/
inductive InsertPos
  | atStart
  | atEnd
deriving DecidableEq

/-- `insertContent` from `blocks.ts`: read the block (fail with a
"Block not found" `MemoryError` if absent), concatenate with a newline
separator according to `position`, trim, and write back. -/
def insertContent (s : BlockStore) (blockId content : Str)
    (position : InsertPos) (now : Nat) : Except MemoryErr BlockStore :=
  match getBlock s blockId with
  | none => Except.error ⟨"insertContent", ("Block not found: ").data ++ blockId⟩
  | some block =>
    let newContent :=
      match position with
      | InsertPos.atStart => content ++ '\n' :: block.content
      | InsertPos.atEnd => block.content ++ '\n' :: content
    Except.ok (updateBlockStore s blockId (jsTrim newContent) now)

/-- `replaceContent` from `blocks.ts`: read the block (fail if absent) and
write back `content.replace(oldContent, newContent)`. -/
def replaceContent (s : BlockStore) (blockId oldContent newContent : Str)
    (now : Nat) : Except MemoryErr BlockStore :=
  match getBlock s blockId with
  | none => Except.error ⟨"replaceContent", ("Block not found: ").data ++ blockId⟩
  | some block =>
    Except.ok (updateBlockStore s blockId
      (replaceFirst oldContent newContent block.content) now)

/-- The `{ success, message }` shape returned by the tool executors. -/
structure ToolResult where
  success : Bool
  message : Str
deriving DecidableEq

/-- `executeMemoryReplace` from `memory-executor.ts`: structured tool
response; `success:false` when the block is missing or `old_content` does
not occur in it, otherwise delegate to `replaceContent`. -/
def executeMemoryReplace (s : BlockStore) (blockId oldContent newContent : Str)
    (now : Nat) : Except MemoryErr (ToolResult × BlockStore) :=
  match getBlock s blockId with
  | none =>
    Except.ok (⟨false, ("Block does not exist: ").data ++ blockId⟩, s)
  | some block =>
    if jsIncludes oldContent block.content then
      match replaceContent s blockId oldContent newContent now with
      | Except.error e => Except.error e
      | Except.ok s2 =>
        Except.ok (⟨true, ("Successfully replaced content in block ").data ++ blockId⟩, s2)
    else
      Except.ok
        (⟨false, ("Content to replace not found in block ").data ++ blockId⟩, s)

/-- Sum of the pairwise products accumulated by the `cosineSimilarity`
loop (`dotProduct`). -/
def dotProduct (a b : List ℝ) : ℝ := (List.zipWith (fun x y => x * y) a b).sum

/-- Sum of squares accumulated by the `cosineSimilarity` loop
(`normA` / `normB` before the square roots). -/
def sumSquares (a : List ℝ) : ℝ := (a.map (fun x => x * x)).sum

open Classical in
/-- `cosineSimilarity` from `semantic-search.ts`: throws on length
mismatch, returns `0` when the denominator `√normA * √normB` is zero, and
otherwise the normalised dot product.  Floating point is idealised as ℝ. -/
noncomputable def cosineSimilarity (a b : List ℝ) : Except String ℝ :=
  if a.length ≠ b.length then Except.error "Vectors must have same length"
  else if Real.sqrt (sumSquares a) * Real.sqrt (sumSquares b) = 0 then Except.ok 0
  else Except.ok (dotProduct a b
    / (Real.sqrt (sumSquares a) * Real.sqrt (sumSquares b)))

/-- The `memory_embeddings` table: `block_id → embedding` rows. -/
abbrev EmbTable := List (Str × List ℝ)

/-- Key lookup over the embeddings table (JS `Map.has` over the loaded
rows; the `block_id` column is a primary key). -/
def hasKey (tbl : EmbTable) (id : Str) : Bool := tbl.any (fun p => p.1 == id)

/-- `storeBlockEmbedding`: `INSERT OR REPLACE INTO memory_embeddings`. -/
def upsertEmb (tbl : EmbTable) (id : Str) (v : List ℝ) : EmbTable :=
  if hasKey tbl id then tbl.map (fun p => if p.1 = id then (id, v) else p)
  else tbl ++ [(id, v)]

/-- The loop of `ensureBlockEmbeddings` from `semantic-search.ts`:
`snapshot` is `existingEmbeddings`, loaded once at the start of the call;
`tbl` is the current embeddings table.  A failing `generateEmbedding`
fails the whole Effect, but SQL writes already committed persist, so the
table reached so far is returned alongside the error. -/
def ensureLoop (embed : Str → Option (List ℝ)) (snapshot tbl : EmbTable) :
    List MemoryBlock → EmbTable × Except MemoryErr Nat
  | [] => (tbl, Except.ok 0)
  | b :: rest =>
    if hasKey snapshot b.id then ensureLoop embed snapshot tbl rest
    else
      match embed b.content with
      | none =>
        (tbl, Except.error ⟨"generate embedding", ("No embedding returned from AI").data⟩)
      | some v =>
        match ensureLoop embed snapshot (upsertEmb tbl b.id v) rest with
        | (tbl2, Except.ok n) => (tbl2, Except.ok (n + 1))
        | (tbl2, Except.error e) => (tbl2, Except.error e)

/-- `ensureBlockEmbeddings` from `semantic-search.ts`: generate and store
an embedding for every input block with no stored embedding, returning the
generated count. -/
def ensureBlockEmbeddings (embed : Str → Option (List ℝ)) (tbl : EmbTable)
    (blocks : List MemoryBlock) : EmbTable × Except MemoryErr Nat :=
  ensureLoop embed tbl tbl blocks

/-- The engine state seen by the block store and the semantic index:
the `memory_blocks` table and the `memory_embeddings` table. -/
structure EngineState where
  blocks : BlockStore
  embeddings : EmbTable

/-- `createBlock` as the engine actually executes it: the SQL insert and
the cache update only — the source contains no call into the semantic
index (`updateBlockEmbedding` / `storeBlockEmbedding` have no caller in
`blocks.ts`). -/
def createBlockE (s : EngineState) (id label content : Str)
    (ty : MemoryBlockType) (now : Nat) : Except MemoryErr (MemoryBlock × EngineState) :=
  match createBlock s.blocks id label content ty now with
  | Except.error e => Except.error e
  | Except.ok (b, bs) => Except.ok (b, ⟨bs, s.embeddings⟩)

/-- `updateBlock` as the engine actually executes it: the SQL update and
the cache mutation only; no embedding refresh is scheduled. -/
def updateBlockE (s : EngineState) (id content : Str) (now : Nat) : EngineState :=
  ⟨updateBlockStore s.blocks id content now, s.embeddings⟩

/-- A scored search result (`{ block, score }`). -/
structure MemorySearchResult where
  block : MemoryBlock
  score : ℝ

/-- Lookup in the loaded embeddings map (`blockEmbeddings.get(block.id)`;
`block_id` is a primary key, so the first matching row is the row). -/
def lookupEmb : EmbTable → Str → Option (List ℝ)
  | [], _ => none
  | p :: rest, id => if p.1 = id then some p.2 else lookupEmb rest id

open Classical in
/-- The comparator `(a, b) => b.score - a.score` of the final sort of
`searchMemoryBlocks`, as the Boolean order "score at least as large"
(JS `Array.prototype.sort` is stable). -/
noncomputable def searchLe (a b : MemorySearchResult) : Bool :=
  decide (b.score ≤ a.score)

open Classical in
/-- The scoring loop of `searchMemoryBlocks`: blocks without a stored
embedding are skipped; otherwise the cosine score against the query
embedding is computed (a dimension mismatch throws out of the whole
operation) and results with score at or above the threshold are collected
in input order. -/
noncomputable def scoreLoop (q : List ℝ) (embTable : EmbTable) (threshold : ℝ) :
    List MemoryBlock → Except String (List MemorySearchResult)
  | [] => Except.ok []
  | b :: rest =>
    match lookupEmb embTable b.id with
    | none => scoreLoop q embTable threshold rest
    | some e =>
      match cosineSimilarity q e with
      | Except.error msg => Except.error msg
      | Except.ok score =>
        match scoreLoop q embTable threshold rest with
        | Except.error msg => Except.error msg
        | Except.ok tail =>
          Except.ok (if threshold ≤ score then ⟨b, score⟩ :: tail else tail)

/-- `searchMemoryBlocks` from `semantic-search.ts`: embed the query (the
operation fails when the gateway does), score the input blocks, sort by
descending score with the stable sort, and return the first `limit`
results.  Defaults in the source are `limit = 5`, `threshold = 0.5`. -/
noncomputable def searchMemoryBlocks (embed : Str → Option (List ℝ))
    (embTable : EmbTable) (query : Str) (blocks : List MemoryBlock)
    (limit : Nat) (threshold : ℝ) : Except String (List MemorySearchResult) :=
  match embed query with
  | none => Except.error "No embedding returned from AI"
  | some q =>
    match scoreLoop q embTable threshold blocks with
    | Except.error msg => Except.error msg
    | Except.ok results => Except.ok ((results.mergeSort searchLe).take limit)

/-- A row of `conversation_summaries_v2` from
`recursive-summarization.ts`. -/
structure ConversationSummary where
  id : Nat
  summary : Str
  summary_level : Nat
  message_count : Nat
  parent_summary_id : Option Nat
  created_at : Nat
deriving DecidableEq

/-- `SummarizationConfig` from `recursive-summarization.ts`. -/
structure SummarizationConfig where
  baseSummaryThreshold : Nat
  recursiveThreshold : Nat
  maxLevel : Nat
  recentSummaryCount : Nat
deriving DecidableEq

/-- `DEFAULT_CONFIG` from `recursive-summarization.ts`. -/
def DEFAULT_CONFIG : SummarizationConfig := ⟨20, 10, 3, 3⟩

/-- The `conversation_summaries_v2` table in rowid order. -/
abbrev SummaryTable := List ConversationSummary

/-- The `ORDER BY created_at ASC` comparator; the stable sort models the
index scan. -/
def createdLe (a b : ConversationSummary) : Bool :=
  decide (a.created_at ≤ b.created_at)

/-- The per-level query of `checkRecursiveSummarizationNeeded`:
unconsolidated rows (`parent_summary_id IS NULL`) at the given level,
ordered `created_at ASC`, `LIMIT limitN` (the source passes
`recursiveThreshold + 1`). -/
def unconsolidatedAt (tbl : SummaryTable) (level limitN : Nat) :
    List ConversationSummary :=
  ((tbl.filter (fun r => decide (r.summary_level = level)
    && r.parent_summary_id.isNone)).mergeSort createdLe).take limitN

/-- The `{ needed: true, level, summaries }` result shape. -/
structure PromotionCheck where
  level : Nat
  summaries : List ConversationSummary
deriving DecidableEq

/-- The level loop of `checkRecursiveSummarizationNeeded` over the listed
levels (`[0, …, maxLevel − 1]` at the call site): at the first level whose
limited unconsolidated count reaches `recursiveThreshold`, return
`{ level: L + 1, summaries: first recursiveThreshold }`. -/
def checkLevels (tbl : SummaryTable) (cfg : SummarizationConfig) :
    List Nat → Option PromotionCheck
  | [] => none
  | L :: rest =>
    if cfg.recursiveThreshold
        ≤ (unconsolidatedAt tbl L (cfg.recursiveThreshold + 1)).length then
      some ⟨L + 1, (unconsolidatedAt tbl L (cfg.recursiveThreshold + 1)).take
        cfg.recursiveThreshold⟩
    else checkLevels tbl cfg rest

/-- `checkRecursiveSummarizationNeeded`: scan levels `0 … maxLevel − 1` in
increasing order; `none` models `{ needed: false }`. -/
def checkRecursiveSummarizationNeeded (tbl : SummaryTable)
    (cfg : SummarizationConfig) : Option PromotionCheck :=
  checkLevels tbl cfg (List.range cfg.maxLevel)

/-- A chat message as consumed by `createBaseSummary`: string content, or
`none` for non-string content rendered as `[tool result]`. -/
structure ChatMessage where
  role : Str
  content : Option Str
deriving DecidableEq

/-- The summaries store: table rows plus the autoincrement counter. -/
structure SummaryState where
  rows : SummaryTable
  nextId : Nat
deriving DecidableEq

/-- The shared `INSERT INTO conversation_summaries_v2 … parent_summary_id
= NULL` followed by `last_insert_rowid()`. -/
def insertSummaryRow (st : SummaryState) (text : Str)
    (level msgCount time : Nat) : SummaryState :=
  ⟨st.rows ++ [⟨st.nextId, text, level, msgCount, none, time⟩], st.nextId + 1⟩

/-- `createBaseSummary` (the LLM output is the `summaryText` parameter;
an LLM failure inserts nothing, so it is not an operation here): insert at
level 0 with `message_count = messages.length`. -/
def createBaseSummary (st : SummaryState) (messages : List ChatMessage)
    (summaryText : Str) (time : Nat) : SummaryState :=
  insertSummaryRow st summaryText 0 messages.length time

/-- `createRecursiveSummary`: insert the consolidated text at
`targetLevel` with the summed `message_count` of the inputs. -/
def createRecursiveSummary (st : SummaryState)
    (inputs : List ConversationSummary) (targetLevel : Nat)
    (summaryText : Str) (time : Nat) : SummaryState :=
  insertSummaryRow st summaryText targetLevel
    ((inputs.map (fun s => s.message_count)).sum) time

/-- `markSummariesConsolidated`: for each listed id,
`UPDATE conversation_summaries_v2 SET parent_summary_id = ? WHERE id = ?`
— unconditionally, with no guard on the current value. -/
def markSummariesConsolidated (st : SummaryState) (summaryIds : List Nat)
    (parentId : Nat) : SummaryState :=
  ⟨st.rows.map (fun r => if r.id ∈ summaryIds then
    { r with parent_summary_id := some parentId } else r), st.nextId⟩

/-- The summary operations of the engine. -/
inductive SummaryOp
  | createBase (messages : List ChatMessage) (summaryText : Str) (time : Nat)
  | createRecursive (inputs : List ConversationSummary) (targetLevel : Nat)
      (summaryText : Str) (time : Nat)
  | mark (summaryIds : List Nat) (parentId : Nat)

/-- Apply one summary operation. -/
def applySummaryOp (st : SummaryState) : SummaryOp → SummaryState
  | SummaryOp.createBase messages text time => createBaseSummary st messages text time
  | SummaryOp.createRecursive inputs lvl text time =>
      createRecursiveSummary st inputs lvl text time
  | SummaryOp.mark ids parent => markSummariesConsolidated st ids parent

/-- Run a sequence of summary operations. -/
def runSummaryOps (st : SummaryState) (ops : List SummaryOp) : SummaryState :=
  ops.foldl applySummaryOp st

/-- Row lookup by primary key (`WHERE id = ?`). -/
def findSummary (st : SummaryState) (id : Nat) : Option ConversationSummary :=
  st.rows.find? (fun r => decide (r.id = id))

/-- A `kv_memory` (`agent_memory`) row. -/
structure KVRow where
  purpose : Str
  text : Str
  updated_at : Nat
deriving DecidableEq

/-- The storage state touched by the migration: the legacy table, its
backup, and the blocks table; `none` models a missing table. -/
structure MigrationState where
  agent_memory : Option (List KVRow)
  agent_memory_backup : Option (List KVRow)
  memory_blocks : Option BlockStore
deriving DecidableEq

/-- `checkMigrationNeeded` from `migration.ts`: `SELECT COUNT(*)` on the
legacy table (a missing table throws, converted to `false` by
`orElseSucceed`), likewise on `memory_blocks`; migration is needed iff
legacy data exists and block data does not. -/
def checkMigrationNeeded (s : MigrationState) : Bool :=
  let hasLegacyData : Bool := match s.agent_memory with
    | none => false
    | some rows => decide (0 < rows.length)
  let hasNewData : Bool := match s.memory_blocks with
    | none => false
    | some bs => decide (0 < bs.length)
  if !hasLegacyData then false else hasLegacyData && !hasNewData

/-- One step of the standard-block creation in
`migrateLegacyMemoriesToBlocks`: `getBlock`, and `createBlock` with empty
content if absent (the create cannot fail then, but the model stays
total). -/
def ensureBlock (bs : BlockStore) (id label : Str) (now : Nat) : BlockStore :=
  match getBlock bs id with
  | some _ => bs
  | none =>
    match createBlock bs id label [] MemoryBlockType.core now with
    | Except.ok (_, bs2) => bs2
    | Except.error _ => bs

/-- Ensure the standard blocks `human`, `persona`, `context` exist. -/
def ensureStandardBlocks (bs : BlockStore) (now : Nat) : BlockStore :=
  ensureBlock (ensureBlock (ensureBlock bs (("human").data) (("Human").data) now)
    (("persona").data) (("Persona").data) now)
    (("context").data) (("Context").data) now

/-- The migrated entry format: `**<purpose>**\n<text>`. -/
def formatKVRow (row : KVRow) : Str :=
  ("**").data ++ row.purpose ++ ("**\n").data ++ row.text

/-- Classify a legacy purpose (lower-cased) into a target block by the
keyword alternatives of the two regexes, `context` otherwise. -/
def classifyTarget (purpose : Str) : Str :=
  let p := purpose.map Char.toLower
  if jsIncludes (("user").data) p || jsIncludes (("customer").data) p
      || jsIncludes (("person").data) p || jsIncludes (("human").data) p
      || jsIncludes (("client").data) p || jsIncludes (("people").data) p then
    ("human").data
  else if jsIncludes (("agent").data) p || jsIncludes (("persona").data) p
      || jsIncludes (("identity").data) p || jsIncludes (("role").data) p
      || jsIncludes (("assistant").data) p then
    ("persona").data
  else ("context").data

/-- `MigrationResult` from `migration.ts`. -/
structure MigrationResult where
  total : Nat
  migrated : Nat
  skipped : Nat
  errors : List Str
deriving DecidableEq

/-- The migration loop: append each legacy row to its target block via
`insertContent` at the end.  An `insertContent` failure fails the whole
Effect (the JS `try`/`catch` around `yield*` does not intercept Effect
failures), so it is propagated. -/
def migrateRows (bs : BlockStore) (now : Nat) :
    List KVRow → Except MemoryErr (Nat × BlockStore)
  | [] => Except.ok (0, bs)
  | row :: rest =>
    match insertContent bs (classifyTarget row.purpose) (formatKVRow row)
        InsertPos.atEnd now with
    | Except.error e => Except.error e
    | Except.ok bs2 =>
      match migrateRows bs2 now rest with
      | Except.error e => Except.error e
      | Except.ok (n, bsf) => Except.ok (n + 1, bsf)

/-- `migrateLegacyMemoriesToBlocks` from `migration.ts`: no-op result when
the legacy table is missing; otherwise ensure the standard blocks (this
fails when `memory_blocks` is missing: the block queries throw), migrate
every legacy row oldest-first, and, when at least one row migrated,
attempt `ALTER TABLE agent_memory RENAME TO agent_memory_legacy_backup`
(non-fatal: `renameOk` models whether the rename succeeded). -/
def migrateLegacyMemoriesToBlocks (s : MigrationState) (now : Nat)
    (renameOk : Bool) : Except MemoryErr (MigrationResult × MigrationState) :=
  match s.agent_memory with
  | none => Except.ok (⟨0, 0, 0, []⟩, s)
  | some rows =>
    match s.memory_blocks with
    | none => Except.error ⟨"getBlock", ("no such table: memory_blocks").data⟩
    | some bs =>
      match migrateRows (ensureStandardBlocks bs now) now rows with
      | Except.error e => Except.error e
      | Except.ok (n, bsf) =>
        if 0 < n ∧ renameOk = true then
          Except.ok (⟨rows.length, n, 0, []⟩, ⟨none, some rows, some bsf⟩)
        else
          Except.ok (⟨rows.length, n, 0, []⟩,
            ⟨some rows, s.agent_memory_backup, some bsf⟩)

/-- Concrete block used by witnesses and counterexamples. -/
def exBlockB : MemoryBlock :=
  ⟨("b").data, ("B").data, ("Original content").data, MemoryBlockType.core, 0, []⟩

/-- Concrete one-block store used by witnesses and counterexamples. -/
def exStoreB : BlockStore := [exBlockB]

/-- Concrete block holding the replace-example content of the spec. -/
def exBlockOld : MemoryBlock :=
  ⟨("b").data, ("B").data, ("The old text here").data, MemoryBlockType.core, 0, []⟩

/-- Concrete one-block store for the replace example. -/
def exStoreOld : BlockStore := [exBlockOld]

/-- Concrete block holding `"abc"`, for the replace counterexample. -/
def c3Block : MemoryBlock :=
  ⟨("b").data, ("B").data, ("abc").data, MemoryBlockType.core, 0, []⟩

/-- Concrete one-block store for the replace counterexample. -/
def c3Store : BlockStore := [c3Block]

/-- Concrete unconsolidated level-0 summary row. -/
def c7row : ConversationSummary := ⟨1, ("s").data, 0, 4, none, 2⟩

/-- Concrete one-row summary table. -/
def tbl7 : SummaryTable := [c7row]

/-- Concrete configuration with `recursiveThreshold = 1`. -/
def cfg7 : SummarizationConfig := ⟨20, 1, 3, 3⟩

/-- Initial empty summary state (autoincrement starts at 1). -/
def c8State0 : SummaryState := ⟨[], 1⟩

/-- Operation sequence: two base summaries, then consolidate row 1 into
row 2. -/
def c8Ops1 : List SummaryOp :=
  [SummaryOp.createBase [] (("s1").data) 1,
   SummaryOp.createBase [] (("s2").data) 2,
   SummaryOp.mark [1] 2]

/-- Concrete consolidated summary state used by the C8 witness. -/
def c8wState : SummaryState := ⟨[⟨1, ("s").data, 0, 3, some 2, 1⟩], 2⟩

/-- Concrete legacy row for the migration witness. -/
def c9Row : KVRow := ⟨("user_profile").data, ("Alice").data, 1⟩

/-- Concrete migration state: one legacy row, no backup, empty blocks
table. -/
def c9State : MigrationState := ⟨some [c9Row], none, some []⟩

/-- The blocks table after the witness migration run. -/
def c9Blocks : BlockStore :=
  [⟨("human").data, ("Human").data, ("**user_profile**\nAlice").data,
      MemoryBlockType.core, 9, []⟩,
   ⟨("persona").data, ("Persona").data, [], MemoryBlockType.core, 9, []⟩,
   ⟨("context").data, ("Context").data, [], MemoryBlockType.core, 9, []⟩]

/-! ### Supporting lemmas about the string and store model -/

theorem strStartsWith_iff (p s : Str) : strStartsWith p s = true ↔ p <+: s := by
  induction p generalizing s with
  | nil => simp [strStartsWith]
  | cons a p ih =>
    cases s with
    | nil => simp [strStartsWith]
    | cons b s =>
      simp [strStartsWith, ih, List.cons_prefix_cons]

theorem dropWhile_eq_self_not_head (p : Char → Bool) (c : Char) (t : Str)
    (h : List.dropWhile p (c :: t) = c :: t) : p c = false := by
  by_cases hp : p c = true
  · exfalso
    rw [List.dropWhile_cons, if_pos hp] at h
    have hlen : (List.dropWhile p t).length ≤ t.length :=
      (List.dropWhile_suffix p).sublist.length_le
    have := congrArg List.length h
    simp at this
    omega
  · simpa using hp

theorem ltrim_eq_self_of_jsTrim (s : Str) (h : jsTrim s = s) : ltrim s = s := by
  have h1 : ltrim s <:+ s := List.dropWhile_suffix isWsChar
  have h2 : (jsTrim s).length ≤ (ltrim s).length := by
    have : ((ltrim s).reverse.dropWhile isWsChar).length ≤ (ltrim s).reverse.length :=
      (List.dropWhile_suffix isWsChar).sublist.length_le
    simpa [jsTrim, rtrim] using this
  have h3 : (ltrim s).length = s.length := by
    have := congrArg List.length h
    have h4 : (ltrim s).length ≤ s.length := h1.sublist.length_le
    omega
  exact h1.sublist.eq_of_length h3

theorem rtrim_eq_self_of_jsTrim (s : Str) (h : jsTrim s = s) : rtrim s = s := by
  have h1 := ltrim_eq_self_of_jsTrim s h
  calc rtrim s = rtrim (ltrim s) := by rw [h1]
    _ = s := h

theorem rev_dropWhile_eq_self_of_jsTrim (s : Str) (h : jsTrim s = s) :
    s.reverse.dropWhile isWsChar = s.reverse := by
  have h1 := rtrim_eq_self_of_jsTrim s h
  have h2 := congrArg List.reverse h1
  simpa [rtrim] using h2

/-- Concatenating two trimmed nonempty strings with a newline separator
yields a trimmed string: `trim` leaves it unchanged. -/
theorem jsTrim_append_sep (a b : Str) (ha : a ≠ []) (hb : b ≠ [])
    (ha2 : jsTrim a = a) (hb2 : jsTrim b = b) :
    jsTrim (a ++ '\n' :: b) = a ++ '\n' :: b := by
  obtain ⟨c, t, rfl⟩ : ∃ c t, a = c :: t := by
    cases a with
    | nil => exact absurd rfl ha
    | cons c t => exact ⟨c, t, rfl⟩
  have hc : isWsChar c = false :=
    dropWhile_eq_self_not_head _ _ _ (ltrim_eq_self_of_jsTrim _ ha2)
  have hrevb : b.reverse.dropWhile isWsChar = b.reverse :=
    rev_dropWhile_eq_self_of_jsTrim b hb2
  obtain ⟨d, u, hdu⟩ : ∃ d u, b.reverse = d :: u := by
    cases hrev : b.reverse with
    | nil => exact absurd (by simpa using congrArg List.reverse hrev) hb
    | cons d u => exact ⟨d, u, rfl⟩
  have hd : isWsChar d = false := by
    rw [hdu] at hrevb
    exact dropWhile_eq_self_not_head _ _ _ hrevb
  have h1 : ltrim ((c :: t) ++ '\n' :: b) = (c :: t) ++ '\n' :: b := by
    simp [ltrim, List.cons_append, List.dropWhile_cons, hc]
  have hrevshape : ((c :: t) ++ '\n' :: b).reverse = d :: (u ++ '\n' :: (c :: t).reverse) := by
    simp [List.reverse_append, hdu]
  have h2 : ((c :: t) ++ '\n' :: b).reverse.dropWhile isWsChar
      = ((c :: t) ++ '\n' :: b).reverse := by
    rw [hrevshape, List.dropWhile_cons, if_neg (by simp [hd])]
  show rtrim (ltrim ((c :: t) ++ '\n' :: b)) = _
  rw [h1]
  unfold rtrim
  rw [h2, List.reverse_reverse]

theorem getBlock_updateBlockStore (s : BlockStore) (id content : Str) (now : Nat) :
    getBlock (updateBlockStore s id content now) id
      = (getBlock s id).map
          (fun b => { b with content := content, updated_at := now }) := by
  induction s with
  | nil => rfl
  | cons b rest ih =>
    by_cases h : b.id = id
    · simp [updateBlockStore, getBlock, h]
    · simp only [updateBlockStore, List.map_cons, getBlock, if_neg h]
      simpa [updateBlockStore, getBlock, h] using ih

theorem getBlock_append_single (s : BlockStore) (b : MemoryBlock)
    (h : getBlock s b.id = none) : getBlock (s ++ [b]) b.id = some b := by
  induction s with
  | nil => simp [getBlock]
  | cons a rest ih =>
    rw [getBlock] at h
    by_cases ha : a.id = b.id
    · rw [if_pos ha] at h
      cases h
    · rw [if_neg ha] at h
      simpa [getBlock, ha] using ih h

theorem jsIncludes_iff (sub s : Str) : jsIncludes sub s = true ↔ sub <:+: s := by
  induction s with
  | nil => simp [jsIncludes, List.isEmpty_iff, List.infix_nil]
  | cons c rest ih =>
    rw [jsIncludes, Bool.or_eq_true, strStartsWith_iff, ih, List.infix_cons_iff]

theorem jsIncludes_eq_false_iff (sub s : Str) :
    jsIncludes sub s = false ↔ ¬ sub <:+: s := by
  rw [← jsIncludes_iff, Bool.not_eq_true, Bool.eq_false_iff, ne_eq, Bool.not_eq_true]

theorem strEndsWith_iff (suf s : Str) : strEndsWith suf s = true ↔ suf <:+ s := by
  rw [strEndsWith, strStartsWith_iff, List.reverse_prefix]

/-! ### Claim theorems: block content operations -/

/-- C2, counterexample: with existing content `"Original content"`,
`insert_content(b, "New ", end)` stores `"Original content\nNew"`, which
does not end with the inserted text `"New "` (the trailing space is
trimmed away), refuting the unconditional ends-with clause of the claim. -/
theorem C2_counterexample :
    insertContent exStoreB (("b").data) (("New ").data) InsertPos.atEnd 5
      = Except.ok [⟨("b").data, ("B").data, ("Original content\nNew").data,
          MemoryBlockType.core, 5, []⟩]
    ∧ ¬ ((("New ").data) <:+ (("Original content\nNew").data)) := by
  refine ⟨by rfl, fun hsuf => ?_⟩
  have := (strEndsWith_iff (("New ").data) (("Original content\nNew").data)).mpr hsuf
  revert this
  decide

/-- C2 (amended): when the block exists, `insert_content(id, x, end)`
stores `trim(old ++ "\n" ++ x)` and `insert_content(id, x, start)` stores
`trim(x ++ "\n" ++ old)`; when both the old content and `x` are nonempty
and already trimmed, the end-insert result is exactly `old ++ "\n" ++ x`
(so it ends with `x` and preserves the prior content with exactly one
newline separator), and symmetrically the start-insert result begins with
`x`; when no block with the id exists, the operation fails with a
block-not-found `MemoryError` and no write occurs. -/
theorem C2_insert_content (s : BlockStore) (id x : Str) (t : Nat) :
    (∀ blk, getBlock s id = some blk →
      (insertContent s id x InsertPos.atEnd t
          = Except.ok (updateBlockStore s id (jsTrim (blk.content ++ '\n' :: x)) t))
      ∧ (insertContent s id x InsertPos.atStart t
          = Except.ok (updateBlockStore s id (jsTrim (x ++ '\n' :: blk.content)) t))
      ∧ (getBlock (updateBlockStore s id (jsTrim (blk.content ++ '\n' :: x)) t) id
          = some { blk with content := jsTrim (blk.content ++ '\n' :: x), updated_at := t })
      ∧ (blk.content ≠ [] → x ≠ [] → jsTrim blk.content = blk.content → jsTrim x = x →
          jsTrim (blk.content ++ '\n' :: x) = blk.content ++ '\n' :: x
          ∧ x <:+ blk.content ++ '\n' :: x
          ∧ jsTrim (x ++ '\n' :: blk.content) = x ++ '\n' :: blk.content
          ∧ x <+: x ++ '\n' :: blk.content))
    ∧ (getBlock s id = none →
        insertContent s id x InsertPos.atEnd t
          = Except.error ⟨"insertContent", ("Block not found: ").data ++ id⟩
        ∧ insertContent s id x InsertPos.atStart t
          = Except.error ⟨"insertContent", ("Block not found: ").data ++ id⟩) := by
  constructor
  · intro blk hblk
    refine ⟨by rw [insertContent, hblk], by rw [insertContent, hblk], ?_, ?_⟩
    · rw [getBlock_updateBlockStore, hblk]
      rfl
    · intro h1 h2 h3 h4
      refine ⟨jsTrim_append_sep _ _ h1 h2 h3 h4, ⟨blk.content ++ ['\n'], by simp⟩,
        jsTrim_append_sep _ _ h2 h1 h4 h3, ⟨'\n' :: blk.content, rfl⟩⟩
  · intro hnone
    exact ⟨by rw [insertContent, hnone], by rw [insertContent, hnone]⟩

/-- C2, witness: inserting trimmed text `"New content"` at the end of the
block holding `"Original content"` stores exactly
`"Original content\nNew content"`, which ends with the inserted text. -/
theorem C2_insert_content_witness :
    getBlock exStoreB (("b").data) = some exBlockB
    ∧ insertContent exStoreB (("b").data) (("New content").data) InsertPos.atEnd 5
        = Except.ok (updateBlockStore exStoreB (("b").data)
            (jsTrim (exBlockB.content ++ '\n' :: ("New content").data)) 5)
    ∧ jsTrim (exBlockB.content ++ '\n' :: ("New content").data)
        = exBlockB.content ++ '\n' :: ("New content").data
    ∧ (("New content").data) <:+ exBlockB.content ++ '\n' :: ("New content").data := by
  have hget : getBlock exStoreB (("b").data) = some exBlockB := by decide
  have h := C2_insert_content exStoreB (("b").data) (("New content").data) 5
  have hmain := (h.1 exBlockB hget)
  have hnice := hmain.2.2.2 (by decide) (by decide) (by decide) (by decide)
  exact ⟨hget, hmain.1, hnice.1, hnice.2.1⟩

theorem getSubstitution_no_dollar (matched before after : Str) :
    ∀ new : Str, ('$' : Char) ∉ new →
    getSubstitution matched before after new = new := by
  intro new
  induction new with
  | nil =>
    intro h
    rfl
  | cons c rest ih =>
    intro h
    have hc : ¬ c = '$' := fun hcq => h (hcq ▸ List.mem_cons_self c rest)
    rw [getSubstitution.eq_def]
    simp only []
    rw [if_neg hc, ih (fun hm => h (List.mem_cons_of_mem c hm))]

theorem replaceFirstAux_no_dollar (old new : Str) (hnd : ('$' : Char) ∉ new) :
    ∀ (s pre : Str), replaceFirstAux old new pre s = literalReplaceFirst old new s := by
  intro s
  induction s with
  | nil =>
    intro pre
    rw [replaceFirstAux, literalReplaceFirst]
    by_cases hm : strStartsWith old ([] : Str) = true
    · rw [if_pos hm, if_pos hm, getSubstitution_no_dollar _ _ _ new hnd]
    · rw [if_neg hm, if_neg hm]
  | cons c rest ih =>
    intro pre
    rw [replaceFirstAux, literalReplaceFirst]
    by_cases hm : strStartsWith old (c :: rest) = true
    · rw [if_pos hm, if_pos hm, getSubstitution_no_dollar _ _ _ new hnd]
    · rw [if_neg hm, if_neg hm, ih (c :: pre)]

theorem replaceFirst_no_dollar (old new s : Str) (hnd : ('$' : Char) ∉ new) :
    replaceFirst old new s = literalReplaceFirst old new s := by
  rw [replaceFirst, replaceFirstAux_no_dollar old new hnd s []]

theorem replaceFirstAux_spec (old new : Str) :
    ∀ (s pre : Str), old <:+: s →
    ∃ p post, s = p ++ old ++ post
      ∧ (∀ p2 post2, s = p2 ++ old ++ post2 → p.length ≤ p2.length)
      ∧ replaceFirstAux old new pre s
          = p ++ getSubstitution old (pre.reverse ++ p) post new ++ post := by
  intro s
  induction s with
  | nil =>
    intro pre hocc
    have hold : old = [] := List.infix_nil.mp hocc
    subst hold
    refine ⟨[], [], rfl, fun p2 post2 h => Nat.zero_le _, ?_⟩
    rw [replaceFirstAux, if_pos (by rfl)]
    simp
  | cons c rest ih =>
    intro pre hocc
    by_cases hm : strStartsWith old (c :: rest) = true
    · obtain ⟨t, ht⟩ := (strStartsWith_iff _ _).mp hm
      have hdrop : (c :: rest).drop old.length = t := by
        rw [← ht, List.drop_left]
      refine ⟨[], (c :: rest).drop old.length, ?_, fun p2 post2 h => Nat.zero_le _, ?_⟩
      · rw [hdrop]
        simp only [List.nil_append]
        exact ht.symm
      · rw [replaceFirstAux, if_pos hm]
        simp
    · have hocc2 : old <:+: rest := by
        rcases List.infix_cons_iff.mp hocc with hp | hi
        · exact absurd ((strStartsWith_iff _ _).mpr hp) hm
        · exact hi
      obtain ⟨p, post, hsplit, hmin, haux⟩ := ih (c :: pre) hocc2
      refine ⟨c :: p, post, ?_, ?_, ?_⟩
      · rw [hsplit]
        simp
      · intro p2 post2 h
        cases p2 with
        | nil =>
          exfalso
          apply hm
          rw [strStartsWith_iff]
          refine ⟨post2, ?_⟩
          simp only [List.nil_append] at h
          exact h.symm
        | cons c2 p2' =>
          have hh : rest = p2' ++ old ++ post2 := by
            have h3 : c :: rest = c2 :: (p2' ++ (old ++ post2)) := by
              simpa only [List.cons_append, List.append_assoc] using h
            injection h3 with h1 h2
            exact h2.trans (List.append_assoc _ _ _).symm
          simp only [List.length_cons]
          exact Nat.succ_le_succ (hmin p2' post2 hh)
      · rw [replaceFirstAux, if_neg hm, haux, List.reverse_cons]
        simp [List.append_assoc]

theorem replaceFirst_first_occurrence (old new s : Str) (hocc : old <:+: s) :
    ∃ p post, s = p ++ old ++ post
      ∧ (∀ p2 post2, s = p2 ++ old ++ post2 → p.length ≤ p2.length)
      ∧ replaceFirst old new s = p ++ getSubstitution old p post new ++ post := by
  obtain ⟨p, post, h1, h2, h3⟩ := replaceFirstAux_spec old new s [] hocc
  refine ⟨p, post, h1, h2, ?_⟩
  rw [replaceFirst, h3]
  simp

/-- C3 (amended): at the tool layer, `memory_replace` on an existing block
returns a structured `success:false` response and leaves the store
unchanged when `old_content` does not occur in the block (occurrence being
substring containment), with no storage-layer exception in either case;
when it does occur, the stored result replaces the first (leftmost)
occurrence, but the replacement text is rewritten by the JS
`GetSubstitution` rules — `$$`, `$&`, dollar-backtick and dollar-quote are
escapes — rather than taken verbatim; when `new_content` contains no
dollar sign this coincides with the literal first-occurrence substitution,
which covers the spec example. -/
theorem C3_replace_content (s : BlockStore) (id old new : Str) (t : Nat)
    (blk : MemoryBlock) (hblk : getBlock s id = some blk) :
    (¬ old <:+: blk.content →
      executeMemoryReplace s id old new t
        = Except.ok (⟨false, ("Content to replace not found in block ").data ++ id⟩, s))
    ∧ (old <:+: blk.content →
      executeMemoryReplace s id old new t
        = Except.ok (⟨true, ("Successfully replaced content in block ").data ++ id⟩,
            updateBlockStore s id (replaceFirst old new blk.content) t)
      ∧ getBlock (updateBlockStore s id (replaceFirst old new blk.content) t) id
          = some { blk with content := replaceFirst old new blk.content, updated_at := t })
    ∧ (old <:+: blk.content →
      ∃ p post, blk.content = p ++ old ++ post
        ∧ (∀ p2 post2, blk.content = p2 ++ old ++ post2 → p.length ≤ p2.length)
        ∧ replaceFirst old new blk.content = p ++ getSubstitution old p post new ++ post)
    ∧ (('$' : Char) ∉ new →
      replaceFirst old new blk.content = literalReplaceFirst old new blk.content) := by
  refine ⟨?_, ?_, fun hyes => replaceFirst_first_occurrence old new blk.content hyes,
    fun hnd => replaceFirst_no_dollar old new blk.content hnd⟩
  · intro hno
    have hb : jsIncludes old blk.content = false := by
      rw [← Bool.not_eq_true, jsIncludes_iff]
      exact hno
    rw [executeMemoryReplace, hblk]
    simp only [hb]
    rfl
  · intro hyes
    have hb : jsIncludes old blk.content = true := (jsIncludes_iff _ _).mpr hyes
    constructor
    · rw [executeMemoryReplace, hblk]
      simp only [hb, if_true]
      rw [replaceContent, hblk]
    · rw [getBlock_updateBlockStore, hblk]
      rfl

/-- C3, counterexample: on content `"abc"`, `memory_replace("b", "b",
"$&$&")` stores `"abbc"` — the program rewrites `$&` to the matched
substring — while the literal first-occurrence substitution the claim
describes would store the text with the two `$&` taken verbatim; the two
results differ, refuting the claim as stated for arbitrary
`new_substr`. -/
theorem C3_counterexample :
    executeMemoryReplace c3Store (("b").data) (("b").data) (("$&$&").data) 7
      = Except.ok
          (⟨true, ("Successfully replaced content in block ").data ++ ("b").data⟩,
           [⟨("b").data, ("B").data, ("abbc").data, MemoryBlockType.core, 7, []⟩])
    ∧ literalReplaceFirst (("b").data) (("$&$&").data) (("abc").data)
        = ("a$&$&c").data
    ∧ ((("abbc").data : Str) ≠ ("a$&$&c").data) := by
  refine ⟨by rfl, by decide, by decide⟩

/-- C3, witness: on content `"The old text here"`, replacing `"old text"`
by `"new text"` succeeds and stores `"The new text here"` (the dollar-free
replacement coincides with the literal substitution); replacing the absent
`"zzz"` returns `success:false` with the store unchanged. -/
theorem C3_replace_content_witness :
    executeMemoryReplace exStoreOld (("b").data) (("old text").data) (("new text").data) 7
      = Except.ok (⟨true, ("Successfully replaced content in block ").data ++ ("b").data⟩,
          updateBlockStore exStoreOld (("b").data)
            (replaceFirst (("old text").data) (("new text").data) exBlockOld.content) 7)
    ∧ replaceFirst (("old text").data) (("new text").data) (("The old text here").data)
        = ("The new text here").data
    ∧ replaceFirst (("old text").data) (("new text").data) exBlockOld.content
        = literalReplaceFirst (("old text").data) (("new text").data) exBlockOld.content
    ∧ executeMemoryReplace exStoreOld (("b").data) (("zzz").data) (("q").data) 7
      = Except.ok (⟨false, ("Content to replace not found in block ").data ++ ("b").data⟩,
          exStoreOld) := by
  have hget : getBlock exStoreOld (("b").data) = some exBlockOld := by decide
  have h1 := C3_replace_content exStoreOld (("b").data) (("old text").data)
    (("new text").data) 7 exBlockOld hget
  have h2 := C3_replace_content exStoreOld (("b").data) (("zzz").data)
    (("q").data) 7 exBlockOld hget
  have hocc : (("old text").data) <:+: exBlockOld.content := by
    rw [← jsIncludes_iff]
    decide
  have hnocc : ¬ (("zzz").data) <:+: exBlockOld.content := by
    rw [← jsIncludes_iff]
    decide
  exact ⟨(h1.2.1 hocc).1, by decide, h1.2.2.2 (by decide), h2.1 hnocc⟩

/-- C4: when `create_block(id, label, content, type)` succeeds, the created
block carries exactly the given id, label, content and type, empty
metadata, and the creation timestamp as `updated_at` (hence `≤` any later
clock reading), and `get_block(id)` on the resulting store returns it. -/
theorem C4_create_then_get (s : BlockStore) (id label content : Str)
    (ty : MemoryBlockType) (t : Nat) (b : MemoryBlock) (s2 : BlockStore)
    (h : createBlock s id label content ty t = Except.ok (b, s2)) :
    b.id = id ∧ b.label = label ∧ b.content = content ∧ b.type = ty
    ∧ b.metadata = [] ∧ b.updated_at = t
    ∧ getBlock s2 id = some b
    ∧ ∀ t2, t ≤ t2 → b.updated_at ≤ t2 := by
  rw [createBlock] at h
  by_cases hex : (getBlock s id).isSome
  · rw [if_pos hex] at h
    cases h
  · rw [if_neg hex] at h
    have hnone : getBlock s id = none := Option.not_isSome_iff_eq_none.mp hex
    cases h
    refine ⟨rfl, rfl, rfl, rfl, rfl, rfl, ?_, fun t2 ht => ht⟩
    exact getBlock_append_single s _ hnone

/-- C4, witness: the spec scenario `create_block("test-block", "Test
Block", "Test content", "core")` followed by `get_block("test-block")`. -/
theorem C4_create_then_get_witness :
    createBlock [] (("test-block").data) (("Test Block").data) (("Test content").data)
        MemoryBlockType.core 3
      = Except.ok (⟨("test-block").data, ("Test Block").data, ("Test content").data,
          MemoryBlockType.core, 3, []⟩,
          [⟨("test-block").data, ("Test Block").data, ("Test content").data,
            MemoryBlockType.core, 3, []⟩])
    ∧ getBlock [(⟨("test-block").data, ("Test Block").data, ("Test content").data,
          MemoryBlockType.core, 3, []⟩ : MemoryBlock)] (("test-block").data)
      = some ⟨("test-block").data, ("Test Block").data, ("Test content").data,
          MemoryBlockType.core, 3, []⟩ := by
  have hcreate : createBlock [] (("test-block").data) (("Test Block").data)
      (("Test content").data) MemoryBlockType.core 3
      = Except.ok (⟨("test-block").data, ("Test Block").data, ("Test content").data,
          MemoryBlockType.core, 3, []⟩,
          [⟨("test-block").data, ("Test Block").data, ("Test content").data,
            MemoryBlockType.core, 3, []⟩]) := by rfl
  have h := C4_create_then_get [] (("test-block").data) (("Test Block").data)
    (("Test content").data) MemoryBlockType.core 3 _ _ hcreate
  exact ⟨hcreate, h.2.2.2.2.2.2.1⟩

/-! ### Claim theorems: cosine similarity and the embedding side-channel -/

theorem dotProduct_self (a : List ℝ) : dotProduct a a = sumSquares a := by
  induction a with
  | nil => rfl
  | cons x t ih =>
    simp only [dotProduct, sumSquares, List.zipWith_cons_cons, List.map_cons,
      List.sum_cons] at ih ⊢
    rw [ih]

theorem sumSquares_neg (a : List ℝ) :
    sumSquares (a.map (fun x => -x)) = sumSquares a := by
  induction a with
  | nil => rfl
  | cons x t ih =>
    simp only [sumSquares, List.map_cons, List.sum_cons] at ih ⊢
    rw [ih, neg_mul_neg]

theorem dotProduct_neg_right (a : List ℝ) :
    dotProduct a (a.map (fun x => -x)) = -(sumSquares a) := by
  induction a with
  | nil => simp [dotProduct, sumSquares]
  | cons x t ih =>
    simp only [dotProduct, sumSquares, List.map_cons, List.zipWith_cons_cons,
      List.sum_cons] at ih ⊢
    rw [ih]
    ring

theorem dotProduct_comm (a b : List ℝ) : dotProduct a b = dotProduct b a := by
  induction a generalizing b with
  | nil => cases b <;> rfl
  | cons x t ih =>
    cases b with
    | nil => rfl
    | cons y u =>
      simp only [dotProduct, List.zipWith_cons_cons, List.sum_cons] at ih ⊢
      rw [mul_comm, ih u]

theorem sumSquares_nonneg (a : List ℝ) : 0 ≤ sumSquares a := by
  refine List.sum_nonneg ?_
  intro x hx
  obtain ⟨y, _, rfl⟩ := List.mem_map.mp hx
  exact mul_self_nonneg y

/-- C5 (amended): cosine similarity raises the dimension-mismatch error on
unequal lengths; returns 0 without dividing when either norm is zero;
otherwise equals `Σaᵢbᵢ / (√Σaᵢ² · √Σbᵢ²)`; `cos(q, q) = 1` whenever
`‖q‖ > 0`; `cos(q, −q) = −1` whenever `‖q‖ > 0` (not unconditionally: the
zero vector yields 0 by the zero-norm rule); and it is symmetric. -/
theorem C5_cosine_similarity :
    (∀ a b : List ℝ, a.length ≠ b.length →
      cosineSimilarity a b = Except.error "Vectors must have same length")
    ∧ (∀ a b : List ℝ, a.length = b.length →
        sumSquares a = 0 ∨ sumSquares b = 0 → cosineSimilarity a b = Except.ok 0)
    ∧ (∀ a b : List ℝ, a.length = b.length →
        Real.sqrt (sumSquares a) * Real.sqrt (sumSquares b) ≠ 0 →
        cosineSimilarity a b = Except.ok (dotProduct a b
          / (Real.sqrt (sumSquares a) * Real.sqrt (sumSquares b))))
    ∧ (∀ q : List ℝ, 0 < sumSquares q → cosineSimilarity q q = Except.ok 1)
    ∧ (∀ q : List ℝ, 0 < sumSquares q →
        cosineSimilarity q (q.map (fun x => -x)) = Except.ok (-1))
    ∧ (∀ a b : List ℝ, cosineSimilarity a b = cosineSimilarity b a) := by
  have hzero : ∀ a b : List ℝ, a.length = b.length →
      sumSquares a = 0 ∨ sumSquares b = 0 → cosineSimilarity a b = Except.ok 0 := by
    intro a b hlen hz
    rw [cosineSimilarity, if_neg (by simp [hlen]), if_pos ?_]
    rcases hz with hz | hz <;> rw [hz, Real.sqrt_zero] <;> ring
  have hval : ∀ a b : List ℝ, a.length = b.length →
      Real.sqrt (sumSquares a) * Real.sqrt (sumSquares b) ≠ 0 →
      cosineSimilarity a b = Except.ok (dotProduct a b
        / (Real.sqrt (sumSquares a) * Real.sqrt (sumSquares b))) := by
    intro a b hlen hden
    rw [cosineSimilarity, if_neg (by simp [hlen]), if_neg hden]
  refine ⟨?_, hzero, hval, ?_, ?_, ?_⟩
  · intro a b hlen
    rw [cosineSimilarity, if_pos hlen]
  · intro q hq
    have hden : Real.sqrt (sumSquares q) * Real.sqrt (sumSquares q) = sumSquares q :=
      Real.mul_self_sqrt (le_of_lt hq)
    rw [hval q q rfl (by rw [hden]; exact ne_of_gt hq), hden, dotProduct_self,
      div_self (ne_of_gt hq)]
  · intro q hq
    have hlen : q.length = (q.map (fun x => -x)).length := by simp
    have hden : Real.sqrt (sumSquares q) * Real.sqrt (sumSquares (q.map (fun x => -x)))
        = sumSquares q := by
      rw [sumSquares_neg, Real.mul_self_sqrt (le_of_lt hq)]
    rw [hval q _ hlen (by rw [hden]; exact ne_of_gt hq), hden, dotProduct_neg_right,
      neg_div, div_self (ne_of_gt hq)]
  · intro a b
    by_cases hlen : a.length = b.length
    · by_cases hden : Real.sqrt (sumSquares a) * Real.sqrt (sumSquares b) = 0
      · have hz : sumSquares a = 0 ∨ sumSquares b = 0 := by
          rcases mul_eq_zero.mp hden with h | h
          · exact Or.inl (le_antisymm (Real.sqrt_eq_zero'.mp h) (sumSquares_nonneg a))
          · exact Or.inr (le_antisymm (Real.sqrt_eq_zero'.mp h) (sumSquares_nonneg b))
        rw [hzero a b hlen hz, hzero b a hlen.symm hz.symm]
      · rw [hval a b hlen hden, hval b a hlen.symm (by rw [mul_comm]; exact hden),
          dotProduct_comm, mul_comm]
    · rw [cosineSimilarity, if_pos hlen, cosineSimilarity,
        if_pos (fun h => hlen h.symm)]

/-- C5, counterexample: for the zero vector `q = [0]`, the code returns
`cos(q, −q) = 0` by the zero-norm rule, not `−1` as the unconditional
clause of the claim states. -/
theorem C5_counterexample :
    cosineSimilarity [(0 : ℝ)] ([(0 : ℝ)].map (fun x => -x)) = Except.ok 0
    ∧ (Except.ok (0 : ℝ) : Except String ℝ) ≠ Except.ok (-1) := by
  constructor
  · rw [cosineSimilarity, if_neg (by simp), if_pos ?_]
    simp [sumSquares, Real.sqrt_zero]
  · intro h
    have h0 : (0 : ℝ) = -1 := by injection h
    norm_num at h0

/-- C5, witness: the spec scenarios `cosine([1,0,0],[1,0,0]) = 1`,
`cosine([1],−[1]) = −1`, and the mismatch error on `[1,0]` vs `[1,0,0]`. -/
theorem C5_cosine_similarity_witness :
    cosineSimilarity [(1 : ℝ), 0, 0] [(1 : ℝ), 0, 0] = Except.ok 1
    ∧ cosineSimilarity [(1 : ℝ)] ([(1 : ℝ)].map (fun x => -x)) = Except.ok (-1)
    ∧ cosineSimilarity [(1 : ℝ), 0] [(1 : ℝ), 0, 0]
        = Except.error "Vectors must have same length" := by
  have h := C5_cosine_similarity
  refine ⟨h.2.2.2.1 _ ?_, h.2.2.2.2.1 [(1 : ℝ)] ?_, h.1 _ _ (by norm_num)⟩
  · norm_num [sumSquares]
  · norm_num [sumSquares]

/-- C1 (evidence of the divergence): as executed by the source, neither a
successful `createBlock` nor `updateBlock` touches the embeddings table —
no best-effort embedding refresh targeting the post-write content is
scheduled anywhere in the content path. -/
theorem C1_no_embedding_refresh (s : EngineState) (id label content : Str)
    (ty : MemoryBlockType) (now : Nat) :
    (∀ b s2, createBlockE s id label content ty now = Except.ok (b, s2) →
      s2.embeddings = s.embeddings)
    ∧ (updateBlockE s id content now).embeddings = s.embeddings := by
  refine ⟨?_, rfl⟩
  intro b s2 h
  rw [createBlockE] at h
  cases hc : createBlock s.blocks id label content ty now with
  | error e =>
    rw [hc] at h
    cases h
  | ok p =>
    rw [hc] at h
    cases p
    cases h
    rfl

/-- C1, witness: creating the spec scenario block on an empty store leaves
the embeddings table exactly as before (empty). -/
theorem C1_no_embedding_refresh_witness :
    createBlockE ⟨[], []⟩ (("test-block").data) (("Test Block").data)
        (("Test content").data) MemoryBlockType.core 0
      = Except.ok (⟨("test-block").data, ("Test Block").data, ("Test content").data,
          MemoryBlockType.core, 0, []⟩,
          ⟨[⟨("test-block").data, ("Test Block").data, ("Test content").data,
            MemoryBlockType.core, 0, []⟩], []⟩)
    ∧ (⟨[⟨("test-block").data, ("Test Block").data, ("Test content").data,
          MemoryBlockType.core, 0, []⟩], []⟩ : EngineState).embeddings
        = (⟨[], []⟩ : EngineState).embeddings := by
  have hrun : createBlockE ⟨[], []⟩ (("test-block").data) (("Test Block").data)
      (("Test content").data) MemoryBlockType.core 0
      = Except.ok (⟨("test-block").data, ("Test Block").data, ("Test content").data,
          MemoryBlockType.core, 0, []⟩,
          ⟨[⟨("test-block").data, ("Test Block").data, ("Test content").data,
            MemoryBlockType.core, 0, []⟩], []⟩) := by rfl
  exact ⟨hrun, (C1_no_embedding_refresh ⟨[], []⟩ (("test-block").data)
    (("Test Block").data) (("Test content").data) MemoryBlockType.core 0).1 _ _ hrun⟩

theorem hasKey_upsert (tbl : EmbTable) (id : Str) (v : List ℝ) (j : Str) :
    hasKey (upsertEmb tbl id v) j = (hasKey tbl j || id == j) := by
  rw [upsertEmb]
  by_cases hin : hasKey tbl id
  · rw [if_pos hin]
    have hkeys : ∀ p : Str × List ℝ,
        ((if p.1 = id then (id, v) else p).1 == j) = (p.1 == j) := by
      intro p
      by_cases hp : p.1 = id
      · rw [if_pos hp, hp]
      · rw [if_neg hp]
    have hmap : ∀ t : EmbTable,
        hasKey (t.map (fun p => if p.1 = id then (id, v) else p)) j = hasKey t j := by
      intro t
      induction t with
      | nil => rfl
      | cons p t iht =>
        simp only [List.map_cons, hasKey, List.any_cons] at iht ⊢
        rw [hkeys p, iht]
    rw [hmap]
    by_cases hj : id = j
    · subst hj
      rw [hin]
      simp
    · simp [beq_eq_false_iff_ne.mpr hj]
  · rw [if_neg hin, hasKey, List.any_append]
    simp [hasKey]

theorem ensureLoop_ok (embed : Str → Option (List ℝ)) (snapshot : EmbTable) :
    ∀ (blocks : List MemoryBlock) (tbl tbl2 : EmbTable) (n : Nat),
      ensureLoop embed snapshot tbl blocks = (tbl2, Except.ok n) →
      n = (blocks.filter (fun b => ! hasKey snapshot b.id)).length := by
  intro blocks
  induction blocks with
  | nil =>
    intro tbl tbl2 n h
    rw [ensureLoop] at h
    cases h
    rfl
  | cons b rest ih =>
    intro tbl tbl2 n h
    rw [ensureLoop] at h
    by_cases hk : hasKey snapshot b.id
    · rw [if_pos hk] at h
      rw [List.filter_cons_of_neg (by simp [hk])]
      exact ih tbl tbl2 n h
    · rw [if_neg hk] at h
      cases he : embed b.content with
      | none =>
        rw [he] at h
        simp only [] at h
        exact absurd (congrArg Prod.snd h) (by simp)
      | some v =>
        rw [he] at h
        simp only [] at h
        cases hrec : ensureLoop embed snapshot (upsertEmb tbl b.id v) rest with
        | mk tblr r =>
          rw [hrec] at h
          cases r with
          | ok m =>
            simp only [] at h
            have hm := congrArg Prod.snd h
            simp only [] at hm
            have hn : m + 1 = n := by injection hm
            rw [List.filter_cons_of_pos (by simp [hk]), List.length_cons, ← hn,
              ih _ _ _ hrec]
          | error e =>
            simp only [] at h
            exact absurd (congrArg Prod.snd h) (by simp)

theorem ensureLoop_preserves (embed : Str → Option (List ℝ)) (snapshot : EmbTable) :
    ∀ (blocks : List MemoryBlock) (tbl tbl2 : EmbTable) (r : Except MemoryErr Nat),
      ensureLoop embed snapshot tbl blocks = (tbl2, r) →
      ∀ j, hasKey tbl j = true → hasKey tbl2 j = true := by
  intro blocks
  induction blocks with
  | nil =>
    intro tbl tbl2 r h j hj
    rw [ensureLoop] at h
    cases h
    exact hj
  | cons b rest ih =>
    intro tbl tbl2 r h j hj
    rw [ensureLoop] at h
    by_cases hk : hasKey snapshot b.id
    · rw [if_pos hk] at h
      exact ih tbl tbl2 r h j hj
    · rw [if_neg hk] at h
      cases he : embed b.content with
      | none =>
        rw [he] at h
        simp only [] at h
        have ht := congrArg Prod.fst h
        simp only [] at ht
        rw [← ht]
        exact hj
      | some v =>
        rw [he] at h
        simp only [] at h
        cases hrec : ensureLoop embed snapshot (upsertEmb tbl b.id v) rest with
        | mk tblr rr =>
          rw [hrec] at h
          have hup : hasKey (upsertEmb tbl b.id v) j = true := by
            rw [hasKey_upsert, hj, Bool.true_or]
          have hkeep := ih _ _ _ hrec j hup
          cases rr with
          | ok m =>
            simp only [] at h
            have ht := congrArg Prod.fst h
            simp only [] at ht
            rw [← ht]
            exact hkeep
          | error e =>
            simp only [] at h
            have ht := congrArg Prod.fst h
            simp only [] at ht
            rw [← ht]
            exact hkeep

theorem ensureLoop_error (embed : Str → Option (List ℝ)) (snapshot : EmbTable) :
    ∀ (blocks : List MemoryBlock) (tbl tbl2 : EmbTable) (e : MemoryErr),
      ensureLoop embed snapshot tbl blocks = (tbl2, Except.error e) →
      ∃ pre b post, blocks = pre ++ b :: post
        ∧ hasKey snapshot b.id = false ∧ embed b.content = none
        ∧ (∀ a ∈ pre, hasKey snapshot a.id = false →
            embed a.content ≠ none ∧ hasKey tbl2 a.id = true)
        ∧ (∀ j, hasKey tbl j = true → hasKey tbl2 j = true) := by
  intro blocks
  induction blocks with
  | nil =>
    intro tbl tbl2 e h
    rw [ensureLoop] at h
    cases h
  | cons b rest ih =>
    intro tbl tbl2 e h
    rw [ensureLoop] at h
    by_cases hk : hasKey snapshot b.id
    · rw [if_pos hk] at h
      obtain ⟨pre, b0, post, hsplit, hb1, hb2, hpre, hmono⟩ := ih tbl tbl2 e h
      refine ⟨b :: pre, b0, post, by rw [hsplit]; rfl, hb1, hb2, ?_, hmono⟩
      intro a ha hfa
      rcases List.mem_cons.mp ha with rfl | ha2
      · rw [hk] at hfa
        cases hfa
      · exact hpre a ha2 hfa
    · rw [if_neg hk] at h
      cases he : embed b.content with
      | none =>
        rw [he] at h
        simp only [] at h
        cases h
        refine ⟨[], b, rest, rfl, by simpa using hk, he, by simp, fun j hj => hj⟩
      | some v =>
        rw [he] at h
        simp only [] at h
        cases hrec : ensureLoop embed snapshot (upsertEmb tbl b.id v) rest with
        | mk tblr rr =>
          rw [hrec] at h
          cases rr with
          | ok m =>
            simp only [] at h
            exact absurd (congrArg Prod.snd h) (by simp)
          | error e2 =>
            simp only [] at h
            cases h
            obtain ⟨pre, b0, post, hsplit, hb1, hb2, hpre, hmono⟩ := ih _ _ _ hrec
            refine ⟨b :: pre, b0, post, by rw [hsplit]; rfl, hb1, hb2, ?_, ?_⟩
            · intro a ha hfa
              rcases List.mem_cons.mp ha with rfl | ha2
              · refine ⟨by rw [he]; exact fun hcon => Option.noConfusion hcon, ?_⟩
                refine hmono a.id ?_
                rw [hasKey_upsert]
                simp
              · exact hpre a ha2 hfa
            · intro j hj
              refine hmono j ?_
              rw [hasKey_upsert, hj, Bool.true_or]

/-- C10: if generating an embedding fails for some input block lacking a
stored one, the whole `ensureBlockEmbeddings` call fails with that error
(later blocks are not processed), while embeddings stored for the earlier
missing blocks — and all previously stored rows — remain stored; on
success the returned count is exactly the number of input blocks that had
no stored embedding at the start of the call. -/
theorem C10_ensure_block_embeddings (embed : Str → Option (List ℝ))
    (tbl : EmbTable) (blocks : List MemoryBlock) :
    (∀ tbl2 n, ensureBlockEmbeddings embed tbl blocks = (tbl2, Except.ok n) →
      n = (blocks.filter (fun b => ! hasKey tbl b.id)).length)
    ∧ (∀ tbl2 e, ensureBlockEmbeddings embed tbl blocks = (tbl2, Except.error e) →
      ∃ pre b post, blocks = pre ++ b :: post
        ∧ hasKey tbl b.id = false ∧ embed b.content = none
        ∧ (∀ a ∈ pre, hasKey tbl a.id = false →
            embed a.content ≠ none ∧ hasKey tbl2 a.id = true)
        ∧ (∀ j, hasKey tbl j = true → hasKey tbl2 j = true)) := by
  constructor
  · intro tbl2 n h
    exact ensureLoop_ok embed tbl blocks tbl tbl2 n h
  · intro tbl2 e h
    exact ensureLoop_error embed tbl blocks tbl tbl2 e h

/-- C10, witness: with a working embedding gateway, a one-block input with
no stored embedding stores one row and reports count 1; with a failing
gateway the call fails and the table is unchanged. -/
theorem C10_ensure_block_embeddings_witness :
    ensureBlockEmbeddings (fun _ => some [(1 : ℝ)]) [] [exBlockB]
      = ([((("b").data : Str), [(1 : ℝ)])], Except.ok 1)
    ∧ (1 = (([exBlockB] : List MemoryBlock).filter
        (fun b => ! hasKey [] b.id)).length)
    ∧ ∃ pre b post, ([exBlockB] : List MemoryBlock) = pre ++ b :: post
        ∧ hasKey [] b.id = false
        ∧ (fun _ : Str => (none : Option (List ℝ))) b.content = none := by
  have hok : ensureBlockEmbeddings (fun _ => some [(1 : ℝ)]) [] [exBlockB]
      = ([((("b").data : Str), [(1 : ℝ)])], Except.ok 1) := by rfl
  have herr : ensureBlockEmbeddings (fun _ => (none : Option (List ℝ))) [] [exBlockB]
      = ([], Except.error
          ⟨"generate embedding", ("No embedding returned from AI").data⟩) := by rfl
  refine ⟨hok, (C10_ensure_block_embeddings
    (fun _ => some [(1 : ℝ)]) [] [exBlockB]).1 _ _ hok, ?_⟩
  obtain ⟨pre, b, post, hsplit, hb1, hb2, _, _⟩ := (C10_ensure_block_embeddings
    (fun _ => (none : Option (List ℝ))) [] [exBlockB]).2 _ _ herr
  exact ⟨pre, b, post, hsplit, hb1, hb2⟩

/-! ### Claim theorems: semantic block search -/

theorem searchLe_iff (a b : MemorySearchResult) :
    searchLe a b = true ↔ b.score ≤ a.score := by
  rw [searchLe, decide_eq_true_iff]

theorem searchLe_trans (a b c : MemorySearchResult)
    (h1 : searchLe a b = true) (h2 : searchLe b c = true) : searchLe a c = true := by
  rw [searchLe_iff] at h1 h2 ⊢
  exact le_trans h2 h1

theorem searchLe_total (a b : MemorySearchResult) :
    (searchLe a b || searchLe b a) = true := by
  rw [Bool.or_eq_true, searchLe_iff, searchLe_iff]
  exact le_total b.score a.score

theorem scoreLoop_mem (q : List ℝ) (embTable : EmbTable) (threshold : ℝ) :
    ∀ (blocks : List MemoryBlock) (mid : List MemorySearchResult),
      scoreLoop q embTable threshold blocks = Except.ok mid →
      ∀ r ∈ mid, threshold ≤ r.score ∧ (lookupEmb embTable r.block.id).isSome
        ∧ r.block ∈ blocks := by
  intro blocks
  induction blocks with
  | nil =>
    intro mid h r hr
    rw [scoreLoop] at h
    cases h
    cases hr
  | cons b rest ih =>
    intro mid h r hr
    rw [scoreLoop] at h
    cases hlk : lookupEmb embTable b.id with
    | none =>
      rw [hlk] at h
      simp only [] at h
      obtain ⟨h1, h2, h3⟩ := ih mid h r hr
      exact ⟨h1, h2, List.mem_cons_of_mem b h3⟩
    | some e =>
      rw [hlk] at h
      simp only [] at h
      cases hcos : cosineSimilarity q e with
      | error msg =>
        rw [hcos] at h
        simp only [] at h
        cases h
      | ok score =>
        rw [hcos] at h
        simp only [] at h
        cases hrec : scoreLoop q embTable threshold rest with
        | error msg =>
          rw [hrec] at h
          simp only [] at h
          cases h
        | ok tail =>
          rw [hrec] at h
          simp only [] at h
          injection h with h4
          by_cases hth : threshold ≤ score
          · rw [if_pos hth] at h4
            rw [← h4] at hr
            rcases List.mem_cons.mp hr with rfl | hr2
            · exact ⟨hth, by rw [hlk]; rfl, List.mem_cons_self _ _⟩
            · obtain ⟨h1, h2, h3⟩ := ih tail hrec r hr2
              exact ⟨h1, h2, List.mem_cons_of_mem b h3⟩
          · rw [if_neg hth] at h4
            rw [← h4] at hr
            obtain ⟨h1, h2, h3⟩ := ih tail hrec r hr
            exact ⟨h1, h2, List.mem_cons_of_mem b h3⟩

theorem scoreLoop_map_sublist (q : List ℝ) (embTable : EmbTable) (threshold : ℝ) :
    ∀ (blocks : List MemoryBlock) (mid : List MemorySearchResult),
      scoreLoop q embTable threshold blocks = Except.ok mid →
      (mid.map (fun r => r.block)).Sublist blocks := by
  intro blocks
  induction blocks with
  | nil =>
    intro mid h
    rw [scoreLoop] at h
    cases h
    exact List.Sublist.refl _
  | cons b rest ih =>
    intro mid h
    rw [scoreLoop] at h
    cases hlk : lookupEmb embTable b.id with
    | none =>
      rw [hlk] at h
      simp only [] at h
      exact (ih mid h).cons b
    | some e =>
      rw [hlk] at h
      simp only [] at h
      cases hcos : cosineSimilarity q e with
      | error msg =>
        rw [hcos] at h
        simp only [] at h
        cases h
      | ok score =>
        rw [hcos] at h
        simp only [] at h
        cases hrec : scoreLoop q embTable threshold rest with
        | error msg =>
          rw [hrec] at h
          simp only [] at h
          cases h
        | ok tail =>
          rw [hrec] at h
          simp only [] at h
          injection h with h4
          by_cases hth : threshold ≤ score
          · rw [if_pos hth] at h4
            rw [← h4]
            simpa using (ih tail hrec).cons₂ b
          · rw [if_neg hth] at h4
            rw [← h4]
            exact (ih tail hrec).cons b

open Classical in
/-- C6: a successful `search_blocks` call returns at most `limit` scored
pairs; every returned score is at least the threshold; only blocks with a
stored embedding appear (missing ones are silently skipped, never scored
as zero); the output is sorted by descending score; and, relative to the
scored list `mid` produced in input order, the result is the `limit`-prefix
of its stable sort, so equal-score results keep the input order of
`blocks`. -/
theorem C6_search_memory_blocks (embed : Str → Option (List ℝ))
    (embTable : EmbTable) (query : Str) (blocks : List MemoryBlock)
    (limit : Nat) (threshold : ℝ) (res : List MemorySearchResult)
    (h : searchMemoryBlocks embed embTable query blocks limit threshold
        = Except.ok res) :
    res.length ≤ limit
    ∧ (∀ r ∈ res, threshold ≤ r.score ∧ (lookupEmb embTable r.block.id).isSome
        ∧ r.block ∈ blocks)
    ∧ res.Pairwise (fun a b => b.score ≤ a.score)
    ∧ (∀ q mid, embed query = some q →
        scoreLoop q embTable threshold blocks = Except.ok mid →
        res = (mid.mergeSort searchLe).take limit
        ∧ (mid.map (fun r => r.block)).Sublist blocks
        ∧ ∀ s : ℝ, (res.filter (fun r => decide (r.score = s))).Sublist
            (mid.filter (fun r => decide (r.score = s)))) := by
  rw [searchMemoryBlocks] at h
  cases hq : embed query with
  | none =>
    rw [hq] at h
    simp only [] at h
    cases h
  | some q =>
    rw [hq] at h
    simp only [] at h
    cases hsl : scoreLoop q embTable threshold blocks with
    | error msg =>
      rw [hsl] at h
      simp only [] at h
      cases h
    | ok mid =>
      rw [hsl] at h
      simp only [] at h
      have hres : res = (mid.mergeSort searchLe).take limit := by
        injection h with h2
        exact h2.symm
      have hsorted : (mid.mergeSort searchLe).Pairwise (fun a b => searchLe a b = true) :=
        List.sorted_mergeSort searchLe_trans searchLe_total mid
      have hmem : ∀ r ∈ res, r ∈ mid := by
        intro r hr
        rw [hres] at hr
        have hr2 : r ∈ mid.mergeSort searchLe :=
          (List.take_sublist _ _).subset hr
        exact (List.mergeSort_perm mid searchLe).mem_iff.mp hr2
      refine ⟨?_, ?_, ?_, ?_⟩
      · rw [hres]
        exact List.length_take_le _ _
      · intro r hr
        exact scoreLoop_mem q embTable threshold blocks mid hsl r (hmem r hr)
      · have hp : res.Pairwise (fun a b => searchLe a b = true) := by
          rw [hres]
          exact hsorted.sublist (List.take_sublist _ _)
        exact hp.imp (fun hab => (searchLe_iff _ _).mp hab)
      · intro q2 mid2 hq2 hsl2
        have hqq : q2 = q := by
          injection hq2 with h3
          exact h3.symm
        rw [hqq] at hsl2
        have hmm : mid2 = mid := by
          rw [hsl] at hsl2
          injection hsl2 with h3
          exact h3.symm
        rw [hmm]
        refine ⟨hres, scoreLoop_map_sublist q embTable threshold blocks mid hsl, ?_⟩
        intro s
        set p : MemorySearchResult → Bool := fun r => decide (r.score = s) with hp
        have hall : ∀ x ∈ mid.filter p, p x = true := fun x hx =>
          (List.mem_filter.mp hx).2
        have hcfilter : (mid.filter p).filter p = mid.filter p :=
          List.filter_eq_self.mpr hall
        have hcpair : (mid.filter p).Pairwise (fun a b => searchLe a b = true) := by
          refine List.pairwise_of_forall_mem_list ?_
          intro a ha b hb
          have ha2 : a.score = s := of_decide_eq_true (hall a ha)
          have hb2 : b.score = s := of_decide_eq_true (hall b hb)
          rw [searchLe_iff, ha2, hb2]
        have hcsub : (mid.filter p).Sublist (mid.mergeSort searchLe) :=
          List.sublist_mergeSort searchLe_trans searchLe_total hcpair
            (List.filter_sublist mid)
        have hcsub2 : (mid.filter p).Sublist ((mid.mergeSort searchLe).filter p) := by
          have := hcsub.filter p
          rw [hcfilter] at this
          exact this
        have hperm : ((mid.mergeSort searchLe).filter p).Perm (mid.filter p) :=
          (List.mergeSort_perm mid searchLe).filter p
        have heq : (mid.mergeSort searchLe).filter p = mid.filter p :=
          (hcsub2.eq_of_length hperm.length_eq.symm).symm
        have hres2 : (res.filter p).Sublist ((mid.mergeSort searchLe).filter p) := by
          rw [hres]
          exact (List.take_sublist _ _).filter p
        rw [heq] at hres2
        exact hres2

/-- C6, witness: a one-block search with a stored embedding equal to the
query embedding returns that block with score 1 ≥ 0.5, within the limit. -/
theorem C6_search_memory_blocks_witness :
    searchMemoryBlocks (fun _ => some [(1 : ℝ), 0])
        [((("b").data : Str), [(1 : ℝ), 0])] (("q").data) [exBlockB] 5 (1/2)
      = Except.ok [⟨exBlockB, 1⟩]
    ∧ ([(⟨exBlockB, 1⟩ : MemorySearchResult)]).length ≤ 5
    ∧ ∀ r ∈ ([(⟨exBlockB, 1⟩ : MemorySearchResult)]), (1 : ℝ)/2 ≤ r.score := by
  have hS : sumSquares [(1 : ℝ), 0] = 1 := by norm_num [sumSquares]
  have hD : dotProduct [(1 : ℝ), 0] [(1 : ℝ), 0] = 1 := by norm_num [dotProduct]
  have hcos : cosineSimilarity [(1 : ℝ), 0] [(1 : ℝ), 0] = Except.ok 1 := by
    rw [cosineSimilarity, if_neg (by norm_num), hS, Real.sqrt_one, mul_one,
      if_neg one_ne_zero, hD, div_one]
  have hlk : lookupEmb [((("b").data : Str), [(1 : ℝ), 0])] (("b").data)
      = some [(1 : ℝ), 0] := by
    rw [lookupEmb, if_pos rfl]
  have hsl : scoreLoop [(1 : ℝ), 0] [((("b").data : Str), [(1 : ℝ), 0])] (1/2) [exBlockB]
      = Except.ok [⟨exBlockB, 1⟩] := by
    rw [scoreLoop]
    have hid : exBlockB.id = ("b").data := rfl
    rw [hid, hlk]
    simp only []
    rw [hcos]
    simp only []
    rw [scoreLoop]
    simp only []
    rw [if_pos (by norm_num)]
  have hrun : searchMemoryBlocks (fun _ => some [(1 : ℝ), 0])
      [((("b").data : Str), [(1 : ℝ), 0])] (("q").data) [exBlockB] 5 (1/2)
      = Except.ok [⟨exBlockB, 1⟩] := by
    rw [searchMemoryBlocks]
    simp only []
    rw [hsl]
    simp only []
    rw [List.mergeSort_singleton]
    rfl
  have h := C6_search_memory_blocks (fun _ => some [(1 : ℝ), 0])
    [((("b").data : Str), [(1 : ℝ), 0])] (("q").data) [exBlockB] 5 (1/2)
    [⟨exBlockB, 1⟩] hrun
  exact ⟨hrun, h.1, fun r hr => (h.2.1 r hr).1⟩

/-! ### Claim theorems: summary ladder -/

theorem checkLevels_some (tbl : SummaryTable) (cfg : SummarizationConfig) :
    ∀ (fuel L0 : Nat) (r : PromotionCheck),
      checkLevels tbl cfg (List.range' L0 fuel) = some r →
      ∃ k, k < fuel
        ∧ r.level = L0 + k + 1
        ∧ cfg.recursiveThreshold
            ≤ (unconsolidatedAt tbl (L0 + k) (cfg.recursiveThreshold + 1)).length
        ∧ r.summaries = (unconsolidatedAt tbl (L0 + k)
            (cfg.recursiveThreshold + 1)).take cfg.recursiveThreshold
        ∧ ∀ j, j < k →
            (unconsolidatedAt tbl (L0 + j) (cfg.recursiveThreshold + 1)).length
              < cfg.recursiveThreshold := by
  intro fuel
  induction fuel with
  | zero =>
    intro L0 r h
    cases h
  | succ fuel ih =>
    intro L0 r h
    rw [show List.range' L0 (fuel + 1) = L0 :: List.range' (L0 + 1) fuel from rfl,
      checkLevels] at h
    by_cases hth : cfg.recursiveThreshold
        ≤ (unconsolidatedAt tbl L0 (cfg.recursiveThreshold + 1)).length
    · rw [if_pos hth] at h
      injection h with h2
      refine ⟨0, Nat.succ_pos fuel, ?_, ?_, ?_, fun j hj => absurd hj (Nat.not_lt_zero j)⟩
      · rw [← h2]
      · simpa using hth
      · rw [← h2]
        rfl
    · rw [if_neg hth] at h
      obtain ⟨k, hk, hlvl, hge, hsum, hmin⟩ := ih (L0 + 1) r h
      refine ⟨k + 1, Nat.succ_lt_succ hk, ?_, ?_, ?_, ?_⟩
      · rw [hlvl]
        omega
      · have : L0 + 1 + k = L0 + (k + 1) := by omega
        rw [← this]
        exact hge
      · have : L0 + 1 + k = L0 + (k + 1) := by omega
        rw [← this]
        exact hsum
      · intro j hj
        cases j with
        | zero =>
          simpa using Nat.lt_of_not_le hth
        | succ j2 =>
          have : L0 + (j2 + 1) = L0 + 1 + j2 := by omega
          rw [this]
          exact hmin j2 (by omega)

theorem checkLevels_none (tbl : SummaryTable) (cfg : SummarizationConfig) :
    ∀ (fuel L0 : Nat),
      checkLevels tbl cfg (List.range' L0 fuel) = none →
      ∀ k, k < fuel →
        (unconsolidatedAt tbl (L0 + k) (cfg.recursiveThreshold + 1)).length
          < cfg.recursiveThreshold := by
  intro fuel
  induction fuel with
  | zero =>
    intro L0 h k hk
    exact absurd hk (Nat.not_lt_zero k)
  | succ fuel ih =>
    intro L0 h k hk
    rw [show List.range' L0 (fuel + 1) = L0 :: List.range' (L0 + 1) fuel from rfl,
      checkLevels] at h
    by_cases hth : cfg.recursiveThreshold
        ≤ (unconsolidatedAt tbl L0 (cfg.recursiveThreshold + 1)).length
    · rw [if_pos hth] at h
      cases h
    · rw [if_neg hth] at h
      cases k with
      | zero => simpa using Nat.lt_of_not_le hth
      | succ k2 =>
        have : L0 + (k2 + 1) = L0 + 1 + k2 := by omega
        rw [this]
        exact ih (L0 + 1) h k2 (by omega)

/-- C7: `check_promotion_needed` scans levels `0 … max_level − 1` in
increasing order over the unconsolidated summaries ordered `created_at
ASC` and limited to `recursive_threshold + 1`; at the first level `L`
whose count reaches `recursive_threshold` it returns `{ level: L + 1,
summaries: the first recursive_threshold oldest }` — so the proposed
target level is between 1 and `max_level`; if no level qualifies it
returns "not needed". -/
theorem C7_check_promotion (tbl : SummaryTable) (cfg : SummarizationConfig) :
    (∀ r, checkRecursiveSummarizationNeeded tbl cfg = some r →
      1 ≤ r.level ∧ r.level ≤ cfg.maxLevel
      ∧ ∃ L, L < cfg.maxLevel
        ∧ r.level = L + 1
        ∧ cfg.recursiveThreshold
            ≤ (unconsolidatedAt tbl L (cfg.recursiveThreshold + 1)).length
        ∧ r.summaries = (unconsolidatedAt tbl L
            (cfg.recursiveThreshold + 1)).take cfg.recursiveThreshold
        ∧ ∀ L2, L2 < L →
            (unconsolidatedAt tbl L2 (cfg.recursiveThreshold + 1)).length
              < cfg.recursiveThreshold)
    ∧ (checkRecursiveSummarizationNeeded tbl cfg = none →
        ∀ L, L < cfg.maxLevel →
          (unconsolidatedAt tbl L (cfg.recursiveThreshold + 1)).length
            < cfg.recursiveThreshold) := by
  constructor
  · intro r h
    rw [checkRecursiveSummarizationNeeded, List.range_eq_range'] at h
    obtain ⟨k, hk, hlvl, hge, hsum, hmin⟩ := checkLevels_some tbl cfg cfg.maxLevel 0 r h
    rw [Nat.zero_add] at hge hsum
    refine ⟨by omega, by omega, k, hk, by omega, hge, hsum, ?_⟩
    intro L2 hL2
    have := hmin L2 hL2
    rwa [Nat.zero_add] at this
  · intro h L hL
    rw [checkRecursiveSummarizationNeeded, List.range_eq_range'] at h
    have := checkLevels_none tbl cfg cfg.maxLevel 0 h L hL
    rwa [Nat.zero_add] at this

/-- C7, witness: with `recursive_threshold = 1` and one unconsolidated
level-0 summary, the check proposes level 1 with that summary, and the
proposed level is within `1 … max_level`. -/
theorem C7_check_promotion_witness :
    checkRecursiveSummarizationNeeded tbl7 cfg7 = some ⟨1, [c7row]⟩
    ∧ 1 ≤ (1 : Nat) ∧ (1 : Nat) ≤ cfg7.maxLevel := by
  have hu : unconsolidatedAt tbl7 0 (cfg7.recursiveThreshold + 1) = [c7row] := by
    rw [unconsolidatedAt,
      show tbl7.filter (fun r => decide (r.summary_level = 0)
        && r.parent_summary_id.isNone) = [c7row] from rfl,
      List.mergeSort_singleton]
    rfl
  have hrun : checkRecursiveSummarizationNeeded tbl7 cfg7 = some ⟨1, [c7row]⟩ := by
    rw [checkRecursiveSummarizationNeeded,
      show List.range cfg7.maxLevel = 0 :: [1, 2] from rfl, checkLevels, hu,
      if_pos (by decide)]
    rfl
  have h := (C7_check_promotion tbl7 cfg7).1 ⟨1, [c7row]⟩ hrun
  exact ⟨hrun, h.1, h.2.1⟩

theorem createBase_getElem (st : SummaryState) (messages : List ChatMessage)
    (text : Str) (time : Nat) (i : Nat) (r : ConversationSummary)
    (h : st.rows[i]? = some r) :
    (applySummaryOp st (SummaryOp.createBase messages text time)).rows[i]? = some r := by
  have hi : i < st.rows.length := (List.getElem?_eq_some.mp h).1
  simp only [applySummaryOp, createBaseSummary, insertSummaryRow]
  rw [List.getElem?_append, if_pos hi]
  exact h

theorem createRecursive_getElem (st : SummaryState)
    (inputs : List ConversationSummary) (lvl : Nat) (text : Str) (time : Nat)
    (i : Nat) (r : ConversationSummary) (h : st.rows[i]? = some r) :
    (applySummaryOp st
      (SummaryOp.createRecursive inputs lvl text time)).rows[i]? = some r := by
  have hi : i < st.rows.length := (List.getElem?_eq_some.mp h).1
  simp only [applySummaryOp, createRecursiveSummary, insertSummaryRow]
  rw [List.getElem?_append, if_pos hi]
  exact h

theorem mark_getElem (st : SummaryState) (ids : List Nat) (parent : Nat)
    (i : Nat) (r : ConversationSummary) (h : st.rows[i]? = some r) :
    (applySummaryOp st (SummaryOp.mark ids parent)).rows[i]?
      = some (if r.id ∈ ids then { r with parent_summary_id := some parent }
          else r) := by
  simp only [applySummaryOp, markSummariesConsolidated]
  rw [List.getElem?_map, h]
  rfl

theorem applySummaryOp_step (st : SummaryState) (op : SummaryOp) (i : Nat)
    (r : ConversationSummary) (h : st.rows[i]? = some r) :
    ∃ r2, (applySummaryOp st op).rows[i]? = some r2 ∧ r2.id = r.id
      ∧ (r.parent_summary_id.isSome → r2.parent_summary_id.isSome) := by
  cases op with
  | createBase messages text time =>
    exact ⟨r, createBase_getElem st messages text time i r h, rfl, fun hs => hs⟩
  | createRecursive inputs lvl text time =>
    exact ⟨r, createRecursive_getElem st inputs lvl text time i r h, rfl, fun hs => hs⟩
  | mark ids parent =>
    refine ⟨if r.id ∈ ids then { r with parent_summary_id := some parent } else r,
      mark_getElem st ids parent i r h, ?_, ?_⟩
    · by_cases hm : r.id ∈ ids
      · rw [if_pos hm]
      · rw [if_neg hm]
    · intro hs
      by_cases hm : r.id ∈ ids
      · rw [if_pos hm]
        rfl
      · rw [if_neg hm]
        exact hs

theorem runSummaryOps_consolidated (ops : List SummaryOp) :
    ∀ (st : SummaryState) (i : Nat) (r : ConversationSummary),
      st.rows[i]? = some r → r.parent_summary_id.isSome →
      ∃ r2, (runSummaryOps st ops).rows[i]? = some r2 ∧ r2.id = r.id
        ∧ r2.parent_summary_id.isSome := by
  induction ops with
  | nil =>
    intro st i r h hs
    exact ⟨r, h, rfl, hs⟩
  | cons op ops ih =>
    intro st i r h hs
    obtain ⟨r1, h1, hid1, hs1⟩ := applySummaryOp_step st op i r h
    obtain ⟨r2, h2, hid2, hs2⟩ := ih (applySummaryOp st op) i r1 h1 (hs1 hs)
    refine ⟨r2, ?_, by rw [hid2, hid1], hs2⟩
    rw [runSummaryOps, List.foldl_cons]
    exact h2

/-- C8 (amended): summary creation operations never touch existing rows;
`mark_consolidated` rewrites `parent_summary_id` to `some parentId`
exactly on the rows whose ids are listed (with no guard on the current
value, so the non-null parent of a listed row CAN change to the new one);
consequently, over any operation sequence a row whose `parent_summary_id`
is non-null keeps a non-null `parent_summary_id` — a `Consolidated` row
never reverts to `Unconsolidated`, but its parent is only stable under the
documented discipline of never re-marking an already-consolidated row. -/
theorem C8_consolidation_monotone :
    (∀ (st : SummaryState) (messages : List ChatMessage) (text : Str)
        (time i : Nat) (r : ConversationSummary), st.rows[i]? = some r →
      (applySummaryOp st (SummaryOp.createBase messages text time)).rows[i]? = some r)
    ∧ (∀ (st : SummaryState) (inputs : List ConversationSummary) (lvl : Nat)
        (text : Str) (time i : Nat) (r : ConversationSummary), st.rows[i]? = some r →
      (applySummaryOp st
        (SummaryOp.createRecursive inputs lvl text time)).rows[i]? = some r)
    ∧ (∀ (st : SummaryState) (ids : List Nat) (parent i : Nat)
        (r : ConversationSummary), st.rows[i]? = some r →
      (applySummaryOp st (SummaryOp.mark ids parent)).rows[i]?
        = some (if r.id ∈ ids then { r with parent_summary_id := some parent }
            else r))
    ∧ (∀ (ops : List SummaryOp) (st : SummaryState) (i : Nat)
        (r : ConversationSummary), st.rows[i]? = some r →
        r.parent_summary_id.isSome →
      ∃ r2, (runSummaryOps st ops).rows[i]? = some r2 ∧ r2.id = r.id
        ∧ r2.parent_summary_id.isSome) :=
  ⟨fun st messages text time i r h => createBase_getElem st messages text time i r h,
   fun st inputs lvl text time i r h => createRecursive_getElem st inputs lvl text time i r h,
   fun st ids parent i r h => mark_getElem st ids parent i r h,
   fun ops st i r h hs => runSummaryOps_consolidated ops st i r h hs⟩

/-- C8, counterexample: from the empty store, create two base summaries,
mark row 1 consolidated into row 2 (`parent_summary_id = 2`), then call
`mark_consolidated([1], 3)` again: the already-non-null
`parent_summary_id` of row 1 changes from 2 to 3, refuting "once set to a non-null
value it never changes afterwards" for reachable states. -/
theorem C8_counterexample :
    (findSummary (runSummaryOps c8State0 c8Ops1) 1).map
        (fun r => r.parent_summary_id) = some (some 2)
    ∧ (findSummary (applySummaryOp (runSummaryOps c8State0 c8Ops1)
        (SummaryOp.mark [1] 3)) 1).map (fun r => r.parent_summary_id) = some (some 3)
    ∧ (some (2 : Nat) : Option Nat) ≠ some 3 := by
  refine ⟨by decide, by decide, by decide⟩

/-- C8, witness: a consolidated row (parent 2) stays consolidated across a
further base-summary creation. -/
theorem C8_consolidation_monotone_witness :
    c8wState.rows[0]? = some ⟨1, ("s").data, 0, 3, some 2, 1⟩
    ∧ ∃ r2, (runSummaryOps c8wState
        [SummaryOp.createBase [] (("x").data) 7]).rows[0]? = some r2
      ∧ r2.id = 1 ∧ r2.parent_summary_id.isSome := by
  have h0 : c8wState.rows[0]? = some ⟨1, ("s").data, 0, 3, some 2, 1⟩ := by decide
  obtain ⟨r2, h2, hid, hs⟩ := C8_consolidation_monotone.2.2.2
    [SummaryOp.createBase [] (("x").data) 7] c8wState 0 _ h0 (by decide)
  exact ⟨h0, r2, h2, by simpa using hid, hs⟩

/-! ### Claim theorems: migration -/

theorem ensureBlock_ne_nil (bs : BlockStore) (id label : Str) (now : Nat) :
    ensureBlock bs id label now ≠ [] := by
  rw [ensureBlock]
  cases hg : getBlock bs id with
  | some b =>
    intro hnil
    simp only [] at hnil
    rw [hnil] at hg
    rw [getBlock] at hg
    cases hg
  | none =>
    simp only []
    rw [createBlock, hg, if_neg (by simp)]
    simp

theorem insertContent_length (bs : BlockStore) (id x : Str) (pos : InsertPos)
    (now : Nat) (bs2 : BlockStore)
    (h : insertContent bs id x pos now = Except.ok bs2) : bs2.length = bs.length := by
  rw [insertContent] at h
  cases hg : getBlock bs id with
  | none =>
    rw [hg] at h
    simp only [] at h
    cases h
  | some blk =>
    rw [hg] at h
    simp only [] at h
    injection h with h2
    rw [← h2, updateBlockStore, List.length_map]

theorem migrateRows_length (now : Nat) :
    ∀ (rows : List KVRow) (bs : BlockStore) (n : Nat) (bsf : BlockStore),
      migrateRows bs now rows = Except.ok (n, bsf) → bsf.length = bs.length := by
  intro rows
  induction rows with
  | nil =>
    intro bs n bsf h
    rw [migrateRows] at h
    cases h
    rfl
  | cons row rest ih =>
    intro bs n bsf h
    rw [migrateRows] at h
    cases hins : insertContent bs (classifyTarget row.purpose) (formatKVRow row)
        InsertPos.atEnd now with
    | error e =>
      rw [hins] at h
      simp only [] at h
      cases h
    | ok bs2 =>
      rw [hins] at h
      simp only [] at h
      cases hrec : migrateRows bs2 now rest with
      | error e =>
        rw [hrec] at h
        simp only [] at h
        cases h
      | ok p =>
        cases p with
        | mk m bsf2 =>
          rw [hrec] at h
          simp only [] at h
          injection h with h2
          have hbs : bsf2 = bsf := congrArg Prod.snd h2
          rw [← hbs, ih bs2 m bsf2 hrec,
            insertContent_length bs _ _ _ now bs2 hins]

/-- C9: `migration_needed()` is true iff the legacy table exists with at
least one row and the blocks table is empty or missing (a missing table in
either count query resolves to a false flag for that side); and it is
false immediately after `migrate_kv_to_blocks()` succeeds with at least
one migrated row — whether or not the best-effort backup rename succeeded,
since the standard blocks make the blocks table non-empty. -/
theorem C9_migration_needed (s : MigrationState) (now : Nat) (renameOk : Bool) :
    (checkMigrationNeeded s = true ↔
      (∃ rows, s.agent_memory = some rows ∧ 0 < rows.length)
      ∧ ∀ bs, s.memory_blocks = some bs → bs = [])
    ∧ (∀ res s2,
        migrateLegacyMemoriesToBlocks s now renameOk = Except.ok (res, s2) →
        1 ≤ res.migrated → checkMigrationNeeded s2 = false) := by
  constructor
  · cases ha : s.agent_memory with
    | none => simp [checkMigrationNeeded, ha]
    | some rows =>
      cases hb : s.memory_blocks with
      | none =>
        simp [checkMigrationNeeded, ha, hb]
        exact fun h => List.length_pos.mp h
      | some bs =>
        by_cases hr : 0 < rows.length
        · simp [checkMigrationNeeded, ha, hb, hr, List.length_eq_zero,
            Nat.pos_iff_ne_zero]
          exact fun _ => List.length_pos.mp hr
        · simp [checkMigrationNeeded, ha, hb, hr]
  · intro res s2 h hmig
    rw [migrateLegacyMemoriesToBlocks] at h
    cases ha : s.agent_memory with
    | none =>
      rw [ha] at h
      simp only [] at h
      injection h with h2
      have hres : (⟨0, 0, 0, []⟩ : MigrationResult) = res := congrArg Prod.fst h2
      rw [← hres] at hmig
      exact absurd hmig (by decide)
    | some rows =>
      rw [ha] at h
      simp only [] at h
      cases hb : s.memory_blocks with
      | none =>
        rw [hb] at h
        simp only [] at h
        cases h
      | some bs =>
        rw [hb] at h
        simp only [] at h
        cases hmr : migrateRows (ensureStandardBlocks bs now) now rows with
        | error e =>
          rw [hmr] at h
          simp only [] at h
          cases h
        | ok p =>
          cases p with
          | mk n bsf =>
            rw [hmr] at h
            simp only [] at h
            have hne : ensureStandardBlocks bs now ≠ [] := by
              rw [ensureStandardBlocks]
              exact ensureBlock_ne_nil _ _ _ _
            have hpos : 0 < bsf.length := by
              rw [migrateRows_length now rows _ n bsf hmr]
              exact List.length_pos.mpr hne
            by_cases hcond : 0 < n ∧ renameOk = true
            · rw [if_pos hcond] at h
              injection h with h2
              have hs2 : (⟨none, some rows, some bsf⟩ : MigrationState) = s2 :=
                congrArg Prod.snd h2
              rw [← hs2]
              rfl
            · rw [if_neg hcond] at h
              injection h with h2
              have hs2 : (⟨some rows, s.agent_memory_backup, some bsf⟩
                  : MigrationState) = s2 := congrArg Prod.snd h2
              rw [← hs2]
              simp [checkMigrationNeeded, hpos]

/-- C9, witness: migrating one legacy row (`user_profile`) into the
standard blocks renames the legacy table away and leaves a non-empty
blocks table, after which `migration_needed()` is false; before the
migration it was true. -/
theorem C9_migration_needed_witness :
    migrateLegacyMemoriesToBlocks c9State 9 true
      = Except.ok (⟨1, 1, 0, []⟩, ⟨none, some [c9Row], some c9Blocks⟩)
    ∧ checkMigrationNeeded c9State = true
    ∧ checkMigrationNeeded ⟨none, some [c9Row], some c9Blocks⟩ = false := by
  have hrun : migrateLegacyMemoriesToBlocks c9State 9 true
      = Except.ok (⟨1, 1, 0, []⟩, ⟨none, some [c9Row], some c9Blocks⟩) := by rfl
  exact ⟨hrun, by decide,
    (C9_migration_needed c9State 9 true).2 _ _ hrun (by decide)⟩

end Memedge
